import Mathlib

/-!
# CIDR calculator: `calculateCIDR` of `main.go`

A shallow embedding of `calculateCIDR` together with the parts of Go's
standard library it runs (`net.ParseCIDR`, `net.ParseIP`, `netip.ParseAddr`,
`net.CIDRMask`, `IP.Mask`, `IP.To4`, `IPMask.Size`, `IP.String`,
`IPNet.String`).

Conventions.
* A Go string is a byte string.  Inputs are Lean strings read as their list of
  characters; every byte the parsers accept is ASCII, and any other character
  is rejected in the same place a byte `>= 0x80` would be.
* A byte slice (`net.IP`, `net.IPMask`, `[16]byte`) is a `List Nat` whose
  entries are below 256; the `nil` slice is `[]`.
* `int` values stay far from the 64-bit limits and are `Int` or `Nat`;
  `uint64` arithmetic is taken modulo `2 ^ 64` and byte arithmetic modulo 256.
* A run-time panic is the error side of `Except Panic`.
-/

namespace Cidr

/-! ## Data model -/

/-- Run-time panics the Go code can raise. -/
inductive Panic where
  | negativeShift
  | indexOutOfRange
  | sliceBoundsOutOfRange
  deriving DecidableEq, Repr

/-- The record `cidrInfo` of `main.go`; the zero value has every field `""`. -/
structure cidrInfo where
  Netmask : String := ""
  Wildcard : String := ""
  TotalAddresses : String := ""
  MaxAddresses : String := ""
  Network : String := ""
  CIDRNotation : String := ""
  AddrRange : String := ""
  Error : String := ""
  deriving DecidableEq, Repr

/-- A parsed `netip.Addr`: a 4-byte address, or a 16-byte one with its zone. -/
inductive Addr where
  | v4 (fields : List Nat)
  | v6 (ip : List Nat) (zone : List Char)
  deriving DecidableEq, Repr

/-! ## `net`: decimal numbers (`parse.go`) -/

/-- The constant `big` of `net/parse.go`. -/
def big : Nat := 0xFFFFFF

/-- Value of a decimal digit byte, `int(c - '0')`. -/
def digitVal (c : Char) : Nat := c.toNat - '0'.toNat

/-- Test `'0' <= c && c <= '9'`. -/
def isDigit (c : Char) : Bool := decide ('0'.toNat ≤ c.toNat) && decide (c.toNat ≤ '9'.toNat)

/-- The loop of `dtoi`: `s` is the unread text `s[i:]`. -/
def dtoiLoop : List Char → Nat → Nat → Nat × Nat × Bool
  | [], n, i => if i = 0 then (0, 0, false) else (n, i, true)
  | c :: cs, n, i =>
    if isDigit c then
      if n * 10 + digitVal c ≥ big then (big, i, false)
      else dtoiLoop cs (n * 10 + digitVal c) (i + 1)
    else if i = 0 then (0, 0, false) else (n, i, true)

/-- Function `dtoi`: decimal to integer; returns number, characters consumed, success. -/
def dtoi (s : List Char) : Nat × Nat × Bool := dtoiLoop s 0 0

/-! ## `netip`: parsing addresses -/

/-- The loop of `parseIPv4Fields`.  Arguments: the unread text `s[i:]`, the
byte `s[i-1]` (`none` when `i = 0`), `val`, `pos`, `digLen`, `fields`. -/
def parseIPv4FieldsLoop :
    List Char → Option Char → Nat → Nat → Nat → List Nat → Option (List Nat)
  | [], _, val, pos, _, fields => if pos < 3 then none else some (fields.set 3 val)
  | c :: cs, prev, val, pos, digLen, fields =>
    if isDigit c then
      if digLen = 1 ∧ val = 0 then none
      else if val * 10 + digitVal c > 255 then none
      else parseIPv4FieldsLoop cs (some c) (val * 10 + digitVal c) pos (digLen + 1) fields
    else if c = '.' then
      if prev = none ∨ cs = [] ∨ prev = some '.' then none
      else if pos = 3 then none
      else parseIPv4FieldsLoop cs (some c) 0 (pos + 1) 0 (fields.set pos val)
    else none

/-- Function `parseIPv4Fields` on the text `in[off:end]`: the four octets, or
`none` for an error. -/
def parseIPv4Fields (s : List Char) : Option (List Nat) :=
  parseIPv4FieldsLoop s none 0 0 0 [0, 0, 0, 0]

/-- Function `parseIPv4` of `netip`. -/
def parseIPv4 (s : List Char) : Option Addr :=
  (parseIPv4Fields s).map Addr.v4

/-- Value of a hexadecimal digit byte, `none` for any other byte. -/
def hexVal (c : Char) : Option Nat :=
  if '0'.toNat ≤ c.toNat ∧ c.toNat ≤ '9'.toNat then some (c.toNat - '0'.toNat)
  else if 'a'.toNat ≤ c.toNat ∧ c.toNat ≤ 'f'.toNat then some (c.toNat - 'a'.toNat + 10)
  else if 'A'.toNat ≤ c.toNat ∧ c.toNat ≤ 'F'.toNat then some (c.toNat - 'A'.toNat + 10)
  else none

/-- The hex-number loop of `parseIPv6`: from `s[off:]`, `off` and `acc` to the
final `off`, `acc` and unread text `s[off:]`; `none` for its two errors. -/
def hexLoop : List Char → Nat → Nat → Option (Nat × Nat × List Char)
  | [], off, acc => some (off, acc, [])
  | c :: cs, off, acc =>
    match hexVal c with
    | none => some (off, acc, c :: cs)
    | some d =>
      if off > 3 then none
      else if (acc * 16 + d) % 2 ^ 32 > 0xFFFF then none
      else hexLoop cs (off + 1) ((acc * 16 + d) % 2 ^ 32)

/-- Store four parsed octets in `ip[i:i+4]`. -/
def setFields (ip : List Nat) (i : Nat) (f : List Nat) : List Nat :=
  (((ip.set i (f.getD 0 0)).set (i + 1) (f.getD 1 0)).set (i + 2) (f.getD 2 0)).set (i + 3)
    (f.getD 3 0)

/-- The loop `for i < 16` of `parseIPv6`, from the unread text `s`, `ip`, `i`
and `ellipsis` (`none` for `-1`) to their values when the loop is left.  Each
turn that continues adds 2 to `i`, so from `i = 0` there are at most 8 turns:
the first argument counts them down and reaches 0 exactly when `i = 16`. -/
def parseIPv6Loop :
    Nat → List Char → List Nat → Nat → Option Nat →
      Option (List Char × List Nat × Nat × Option Nat)
  | 0, s, ip, i, ellipsis => some (s, ip, i, ellipsis)
  | turns + 1, s, ip, i, ellipsis =>
    if ¬ i < 16 then some (s, ip, i, ellipsis)
    else
      match hexLoop s 0 0 with
      | none => none
      | some (off, acc, rest) =>
        if off = 0 then none
        else if rest.head? = some '.' then
          if ellipsis = none ∧ i ≠ 12 then none
          else if i + 4 > 16 then none
          else
            match parseIPv4Fields s with
            | none => none
            | some f => some ([], setFields ip i f, i + 4, ellipsis)
        else
          match rest with
          | [] => some ([], (ip.set i (acc / 256)).set (i + 1) (acc % 256), i + 2, ellipsis)
          | c :: rest1 =>
            if c ≠ ':' then none
            else
              match rest1 with
              | [] => none
              | ':' :: rest2 =>
                if ellipsis.isSome then none
                else if rest2 = [] then
                  some ([], (ip.set i (acc / 256)).set (i + 1) (acc % 256), i + 2, some (i + 2))
                else
                  parseIPv6Loop turns rest2 ((ip.set i (acc / 256)).set (i + 1) (acc % 256))
                    (i + 2) (some (i + 2))
              | _ :: _ =>
                parseIPv6Loop turns rest1 ((ip.set i (acc / 256)).set (i + 1) (acc % 256))
                  (i + 2) ellipsis

/-- Expansion of the ellipsis at the end of `parseIPv6`: the bytes
`ip[ellipsis:i]` move up by `n = 16 - i` and `ip[ellipsis:ellipsis+n]` is cleared. -/
def expandEllipsis (ip : List Nat) (i ellipsis : Nat) : List Nat :=
  (List.range 16).map fun k =>
    if k < ellipsis then ip.getD k 0
    else if k < ellipsis + (16 - i) then 0
    else ip.getD (k - (16 - i)) 0

/-- Split `s` at its first `%`: the text before it and, when there is one, the
text after it. -/
def splitZone : List Char → List Char × Option (List Char)
  | [] => ([], none)
  | c :: cs =>
    if c = '%' then ([], some cs)
    else ((c :: (splitZone cs).1), (splitZone cs).2)

/-- Function `parseIPv6` of `netip`. -/
def parseIPv6 (s0 : List Char) : Option Addr :=
  let sz := splitZone s0
  if sz.2 = some [] then none
  else
    let zone := sz.2.getD []
    let s := sz.1
    let lead : Bool := s.take 2 = [':', ':']
    if lead ∧ s.drop 2 = [] then some (Addr.v6 (List.replicate 16 0) zone)
    else
      match parseIPv6Loop 8 (if lead then s.drop 2 else s) (List.replicate 16 0) 0
          (if lead then some 0 else none) with
      | none => none
      | some (rest, ip, i, ellipsis) =>
        if rest ≠ [] then none
        else if i < 16 then
          match ellipsis with
          | none => none
          | some e => some (Addr.v6 (expandEllipsis ip i e) zone)
        else if ellipsis.isSome then none
        else some (Addr.v6 ip zone)

/-- The scan of `ParseAddr` for the first `.`, `:` or `%` of `s`, over the
unread text `rest`. -/
def ParseAddrScan (s : List Char) : List Char → Option Addr
  | [] => none
  | c :: cs =>
    if c = '.' then parseIPv4 s
    else if c = ':' then parseIPv6 s
    else if c = '%' then none
    else ParseAddrScan s cs

/-- Function `netip.ParseAddr`. -/
def ParseAddr (s : List Char) : Option Addr := ParseAddrScan s s

/-- Method `Addr.Zone`. -/
def Addr.Zone : Addr → List Char
  | .v4 _ => []
  | .v6 _ zone => zone

/-- Method `Addr.BitLen`. -/
def Addr.BitLen : Addr → Nat
  | .v4 _ => 32
  | .v6 _ _ => 128

/-- The 12-byte lead `v4InV6Prefix` of an IPv4-mapped IPv6 address. -/
def v4InV6Lead : List Nat := [0, 0, 0, 0, 0, 0, 0, 0, 0, 0, 0xff, 0xff]

/-- Method `Addr.As16`. -/
def Addr.As16 : Addr → List Nat
  | .v4 fields => v4InV6Lead ++ fields
  | .v6 ip _ => ip

/-! ## `net`: addresses, masks and networks (`ip.go`) -/

/-- Type `net.IPNet`: the network number and the mask. -/
structure IPNet where
  IP : List Nat
  Mask : List Nat
  deriving DecidableEq, Repr

/-- Function `net.ParseIP`: the 16-byte form of the address; `none` is the
`nil` returned when `s` is not an IP literal or carries a zone. -/
def ParseIP (s : List Char) : Option (List Nat) :=
  match ParseAddr s with
  | none => none
  | some addr => if addr.Zone ≠ [] then none else some addr.As16

/-- The loop of `CIDRMask`, over the `l` bytes still to fill, with `n` ones left. -/
def CIDRMaskLoop : Nat → Nat → List Nat
  | 0, _ => []
  | l + 1, n =>
    if n ≥ 8 then 0xff :: CIDRMaskLoop l (n - 8)
    else ((0xff >>> n) ^^^ 0xff) :: CIDRMaskLoop l 0

/-- Function `net.CIDRMask`. -/
def CIDRMask (ones bits : Nat) : List Nat :=
  if bits ≠ 8 * 4 ∧ bits ≠ 8 * 16 then []
  else if ones > bits then []
  else CIDRMaskLoop (bits / 8) ones

/-- Function `allFF`. -/
def allFF (b : List Nat) : Bool := b.all fun c => c = 0xff

/-- Function `isZeros`. -/
def isZeros (b : List Nat) : Bool := b.all fun c => c = 0

/-- Method `IP.Mask`. -/
def IPMask (ip mask : List Nat) : List Nat :=
  let mask1 := if mask.length = 16 ∧ ip.length = 4 ∧ allFF (mask.take 12) then mask.drop 12
    else mask
  let ip1 := if mask1.length = 4 ∧ ip.length = 16 ∧ ip.take 12 = v4InV6Lead then ip.drop 12
    else ip
  if ip1.length ≠ mask1.length then []
  else List.zipWith (fun a b => a &&& b) ip1 mask1

/-- Method `IP.To4`. -/
def To4 (ip : List Nat) : List Nat :=
  if ip.length = 4 then ip
  else if ip.length = 16 ∧ isZeros (ip.take 10) ∧ ip.getD 10 0 = 0xff ∧ ip.getD 11 0 = 0xff then
    (ip.drop 12).take 4
  else []

/-- The loop `for v&0x80 != 0` of `simpleMaskLength` on the byte `v`: the
number of leading one bits and what is left of `v`.  A byte is empty after 8
shifts, so 8 turns are enough. -/
def leadingOnes : Nat → Nat → Nat × Nat
  | 0, v => (0, v)
  | turns + 1, v =>
    if v &&& 0x80 ≠ 0 then
      ((leadingOnes turns ((v <<< 1) % 256)).1 + 1, (leadingOnes turns ((v <<< 1) % 256)).2)
    else (0, v)

/-- Function `simpleMaskLength`: the number of leading ones of a mask made of
ones followed by zeros, `-1` for any other mask. -/
def simpleMaskLength : List Nat → Int
  | [] => 0
  | v :: rest =>
    if v = 0xff then
      (if simpleMaskLength rest = -1 then -1 else simpleMaskLength rest + 8)
    else if (leadingOnes 8 v).2 ≠ 0 then -1
    else if rest.any (fun b => b ≠ 0) then -1
    else ((leadingOnes 8 v).1 : Int)

/-- Method `IPMask.Size`. -/
def Size (m : List Nat) : Int × Int :=
  if simpleMaskLength m = -1 then (0, 0) else (simpleMaskLength m, (m.length * 8 : Nat))

/-- Function `net.ParseCIDR` on the text `s`: the address and the network, or
`none` for a parse error. -/
def ParseCIDR (s : List Char) : Option (List Nat × IPNet) :=
  if ¬ s.contains '/' then none
  else
    let addr := s.takeWhile (fun c => c ≠ '/')
    let mask := (s.dropWhile (fun c => c ≠ '/')).drop 1
    match ParseAddr addr with
    | none => none
    | some ipAddr =>
      if ipAddr.Zone ≠ [] then none
      else
        let d := dtoi mask
        if ¬ d.2.2 ∨ d.2.1 ≠ mask.length ∨ d.1 > ipAddr.BitLen then none
        else
          let m := CIDRMask d.1 ipAddr.BitLen
          some (ipAddr.As16, { IP := IPMask ipAddr.As16 m, Mask := m })

/-! ## `net`, `netip`: rendering -/

/-- Lower-case hexadecimal digit of a value below 16. -/
def hexDigit (n : Nat) : Char := Nat.digitChar n

/-- Function `hexString`: two hexadecimal digits for each byte. -/
def hexString (b : List Nat) : String :=
  String.mk (b.flatMap fun tn => [hexDigit (tn >>> 4), hexDigit (tn &&& 0xf)])

/-- Function `appendHex`: a 16-bit field in hexadecimal, without leading zeros. -/
def appendHex (x : Nat) : List Char :=
  (if x ≥ 0x1000 then [hexDigit (x >>> 12)] else []) ++
  (if x ≥ 0x100 then [hexDigit (x >>> 8 &&& 0xf)] else []) ++
  (if x ≥ 0x10 then [hexDigit (x >>> 4 &&& 0xf)] else []) ++
  [hexDigit (x &&& 0xf)]

/-- Method `Addr.v6u16`, as the list of the eight 16-bit fields of `ip`. -/
def v6u16 (ip : List Nat) : List Nat :=
  (List.range 8).map fun k => ip.getD (2 * k) 0 * 256 + ip.getD (2 * k + 1) 0

/-- The inner loop `for j < 8 && ip.v6u16(j) == 0` of `appendTo6`: the end of
the run of zero fields that starts at `j`. -/
def zeroRunEnd (f : List Nat) : Nat → Nat → Nat
  | 0, j => j
  | turns + 1, j => if j < 8 ∧ f.getD j 0 = 0 then zeroRunEnd f turns (j + 1) else j

/-- The first loop of `appendTo6`: the longest run of at least two zero fields,
from field `i` on, given the best run so far. -/
def findZeroRun (f : List Nat) : Nat → Nat → Nat × Nat → Nat × Nat
  | 0, _, best => best
  | turns + 1, i, best =>
    if ¬ i < 8 then best
    else
      let j := zeroRunEnd f 8 i
      if j - i ≥ 2 ∧ j - i > best.2 - best.1 then findZeroRun f turns (i + 1) (i, j)
      else findZeroRun f turns (i + 1) best

/-- The second loop of `appendTo6`, from field `i` on. -/
def appendTo6Loop (f : List Nat) (zeroStart zeroEnd : Nat) : Nat → Nat → List Char
  | 0, _ => []
  | turns + 1, i =>
    if ¬ i < 8 then []
    else if i = zeroStart then
      if zeroEnd ≥ 8 then [':', ':']
      else [':', ':'] ++ appendHex (f.getD zeroEnd 0) ++
        appendTo6Loop f zeroStart zeroEnd turns (zeroEnd + 1)
    else (if i > 0 then [':'] else []) ++ appendHex (f.getD i 0) ++
      appendTo6Loop f zeroStart zeroEnd turns (i + 1)

/-- Method `Addr.string6` of a 16-byte address without zone. -/
def string6 (ip : List Nat) : String :=
  let run := findZeroRun (v6u16 ip) 8 0 (255, 255)
  String.mk (appendTo6Loop (v6u16 ip) run.1 run.2 8 0)

/-- Method `Addr.string4`: dotted decimal. -/
def string4 (p4 : List Nat) : String :=
  toString (p4.getD 0 0) ++ "." ++ toString (p4.getD 1 0) ++ "." ++ toString (p4.getD 2 0) ++ "."
    ++ toString (p4.getD 3 0)

/-- Method `IP.String`. -/
def IPString (ip : List Nat) : String :=
  if ip.length = 0 then "<nil>"
  else if ip.length ≠ 4 ∧ ip.length ≠ 16 then "?" ++ hexString ip
  else if (To4 ip).length = 4 then string4 (To4 ip)
  else string6 ip

/-- Method `IPMask.String`. -/
def MaskString (m : List Nat) : String :=
  if m.length = 0 then "<nil>" else hexString m

/-- Function `networkNumberAndMask`; `none` is the pair `nil, nil`. -/
def networkNumberAndMask (n : IPNet) : Option (List Nat × List Nat) :=
  let ip := if To4 n.IP = [] then n.IP else To4 n.IP
  if To4 n.IP = [] ∧ ip.length ≠ 16 then none
  else if n.Mask.length = 4 then
    if ip.length ≠ 4 then none else some (ip, n.Mask)
  else if n.Mask.length = 16 then
    if ip.length = 4 then some (ip, n.Mask.drop 12) else some (ip, n.Mask)
  else none

/-- Method `IPNet.String`. -/
def IPNetString (n : IPNet) : String :=
  match networkNumberAndMask n with
  | none => IPString n.IP ++ "/" ++ MaskString n.Mask
  | some (nn, m) =>
    if simpleMaskLength m = -1 then IPString nn ++ "/" ++ MaskString m
    else IPString nn ++ "/" ++ toString (simpleMaskLength m).toNat

/-! ## `main.go` -/

/-- Indexing `b[i]` of a byte slice, with its bounds check. -/
def index (b : List Nat) (i : Nat) : Except Panic Nat :=
  match b.get? i with
  | some v => pure v
  | none => throw Panic.indexOutOfRange

/-- Function `calculateCIDR` of `main.go`. -/
def calculateCIDR (ipStr maskStr : String) : Except Panic cidrInfo :=
  if ipStr = "" ∨ maskStr = "" then pure {}
  else
    match ParseCIDR (ipStr ++ "/" ++ maskStr).toList with
    | none =>
      if ParseIP ipStr.toList = none then pure { Error := "Invalid IP Address" }
      else pure { Error := "Invalid Mask" }
    | some (ip, ipnet) =>
      if To4 ip = [] then pure { Error := "Only IPv4 addresses are supported." }
      else
        let mask := ipnet.Mask
        let ones := (Size mask).1
        if 32 - ones < 0 then throw Panic.negativeShift
        else
          let totalAddresses := (1 <<< (32 - ones).toNat) % 2 ^ 64
          let maxUsableAddresses :=
            if ones = 32 then 1
            else if ones = 31 then 2
            else (totalAddresses + 2 ^ 64 - 2) % 2 ^ 64
          if mask.length < 4 then throw Panic.sliceBoundsOutOfRange
          else do
            let netmask := mask.drop (mask.length - 4)
            let n0 ← index netmask 0
            let n1 ← index netmask 1
            let n2 ← index netmask 2
            let n3 ← index netmask 3
            let wildcard := [n0 ^^^ 0xff, n1 ^^^ 0xff, n2 ^^^ 0xff, n3 ^^^ 0xff]
            let networkIP := To4 ipnet.IP
            let b0 ← index networkIP 0
            let w0 ← index wildcard 0
            let b1 ← index networkIP 1
            let w1 ← index wildcard 1
            let b2 ← index networkIP 2
            let w2 ← index wildcard 2
            let b3 ← index networkIP 3
            let w3 ← index wildcard 3
            let broadcast := [b0 ||| w0, b1 ||| w1, b2 ||| w2, b3 ||| w3]
            pure {
              Netmask :=
                toString n0 ++ "." ++ toString n1 ++ "." ++ toString n2 ++ "." ++ toString n3
              Wildcard := IPString wildcard
              TotalAddresses := toString totalAddresses
              MaxAddresses := toString maxUsableAddresses
              Network := IPString networkIP
              CIDRNotation := IPNetString ipnet
              AddrRange := IPString networkIP ++ " - " ++ IPString broadcast }

/-! ## Reference notions used to state the properties -/

/-- Value of the decimal digits `s` appended to a number `acc`. -/
def decimalValue (s : List Char) (acc : Nat) : Nat :=
  s.foldl (fun v c => v * 10 + digitVal c) acc

/-- Dotted-quad rendering of four octets. -/
def dottedQuad (b0 b1 b2 b3 : Nat) : String :=
  toString b0 ++ "." ++ toString b1 ++ "." ++ toString b2 ++ "." ++ toString b3

/-- The 32-bit value whose `n` high-order bits are one and whose other bits are zero. -/
def netmaskValue (n : Nat) : Nat := 2 ^ 32 - 2 ^ (32 - n)

/-- Octet `k` of a 32-bit value, octet 0 being the most significant. -/
def octet (v k : Nat) : Nat := v / 2 ^ (8 * (3 - k)) % 256

/-- The 32-bit value of four octets, the first being the most significant. -/
def value32 (b0 b1 b2 b3 : Nat) : Nat := b0 * 2 ^ 24 + b1 * 2 ^ 16 + b2 * 2 ^ 8 + b3

/-- All seven data fields of a record are populated (non-empty). -/
def populated (r : cidrInfo) : Prop :=
  r.Netmask ≠ "" ∧ r.Wildcard ≠ "" ∧ r.TotalAddresses ≠ "" ∧ r.MaxAddresses ≠ "" ∧
    r.Network ≠ "" ∧ r.CIDRNotation ≠ "" ∧ r.AddrRange ≠ ""

/-- A mask text is a non-empty string of decimal digits whose value is in 0..32. -/
def denotesLength (s : List Char) : Prop :=
  s ≠ [] ∧ (∀ c ∈ s, isDigit c = true) ∧ decimalValue s 0 ≤ 32

/-- Split a text at its first `/`: the text before it and the text after it. -/
def splitAtSlash (s : String) : String × String :=
  (String.mk (s.toList.takeWhile (fun c => c ≠ '/')),
    String.mk ((s.toList.dropWhile (fun c => c ≠ '/')).drop 1))

/-- Number of low zero bits of octet `k` of the netmask of prefix length `n`. -/
def hostBits (n k : Nat) : Nat := 8 - min 8 (n - 8 * k)

/-- Octet `k` of the network address of the block of length `n` around an
address whose octet `k` is `a`: the byte-wise AND with the netmask. -/
def networkOctet (n k a : Nat) : Nat := a &&& octet (netmaskValue n) k

/-- Octet `k` of the broadcast address of the block of length `n` around an
address whose octet `k` is `a`: the network octet OR the wildcard octet. -/
def broadcastOctet (n k a : Nat) : Nat :=
  networkOctet n k a ||| (octet (netmaskValue n) k ^^^ 0xff)

/-! ## Facts about the parsers -/

theorem isDigit_ne_slash {c : Char} (h : isDigit c = true) : c ≠ '/' := by
  rintro rfl
  revert h
  decide

theorem parseIPv4FieldsLoop_no_slash :
    ∀ (s : List Char) (prev : Option Char) (val pos dl : Nat) (f r : List Nat),
      parseIPv4FieldsLoop s prev val pos dl f = some r → '/' ∉ s := by
  intro s
  induction s with
  | nil => intros; simp
  | cons c cs ih =>
    intro prev val pos dl f r h
    rw [parseIPv4FieldsLoop] at h
    split_ifs at h with h1 h2 h3 h4 h5 h6
    · have := ih _ _ _ _ _ _ h
      simp only [List.mem_cons, not_or]
      exact ⟨fun e => isDigit_ne_slash h1 e.symm, this⟩
    · have := ih _ _ _ _ _ _ h
      simp only [List.mem_cons, not_or]
      refine ⟨?_, this⟩
      rw [h4]; decide

theorem parseIPv6_ne_v4 (s : List Char) (f : List Nat) : parseIPv6 s ≠ some (Addr.v4 f) := by
  unfold parseIPv6
  intro h
  simp only at h
  split_ifs at h <;> first
    | cases h
    | (split at h
       · cases h
       · split_ifs at h
         · split at h <;> cases h
         · cases h)

theorem ParseAddrScan_v4 (s : List Char) :
    ∀ (rest : List Char) (f : List Nat), ParseAddrScan s rest = some (Addr.v4 f) →
      parseIPv4Fields s = some f := by
  intro rest
  induction rest with
  | nil => intro f h; simp [ParseAddrScan] at h
  | cons c cs ih =>
    intro f h
    rw [ParseAddrScan] at h
    split_ifs at h
    · simpa [parseIPv4] using h
    · exact absurd h (parseIPv6_ne_v4 s f)
    · exact ih f h

theorem ParseAddr_v4_no_slash {s : List Char} {f : List Nat}
    (h : ParseAddr s = some (Addr.v4 f)) : '/' ∉ s :=
  parseIPv4FieldsLoop_no_slash s none 0 0 0 _ f (ParseAddrScan_v4 s s f h)

theorem ParseAddr_ne_nil {s : List Char} {x : Addr} (h : ParseAddr s = some x) : s ≠ [] := by
  rintro rfl
  simp [ParseAddr, ParseAddrScan] at h

theorem decimalValue_ge : ∀ (s : List Char) (acc : Nat), acc ≤ decimalValue s acc := by
  intro s
  induction s with
  | nil => intro acc; simp [decimalValue]
  | cons c cs ih =>
    intro acc
    have h := ih (acc * 10 + digitVal c)
    simp only [decimalValue, List.foldl_cons] at h ⊢
    omega

theorem dtoiLoop_digits :
    ∀ (s : List Char) (acc i : Nat), (∀ c ∈ s, isDigit c = true) → decimalValue s acc < big →
      0 < i + s.length → dtoiLoop s acc i = (decimalValue s acc, i + s.length, true) := by
  intro s
  induction s with
  | nil =>
    intro acc i _ _ hpos
    have : i ≠ 0 := by simpa using hpos.ne'
    simp [dtoiLoop, decimalValue, this]
  | cons c cs ih =>
    intro acc i hd hv _
    have hc : isDigit c = true := hd c (List.mem_cons_self _ _)
    have hv1 : decimalValue cs (acc * 10 + digitVal c) < big := by
      simpa [decimalValue] using hv
    have hlt : ¬ (acc * 10 + digitVal c ≥ big) := by
      have := decimalValue_ge cs (acc * 10 + digitVal c)
      omega
    rw [dtoiLoop, if_pos hc, if_neg hlt,
      ih _ _ (fun d hdm => hd d (List.mem_cons_of_mem _ hdm)) hv1 (by omega)]
    simp only [decimalValue, List.foldl_cons, List.length_cons, Prod.mk.injEq, and_true, true_and]
    omega

/-- A non-empty text of decimal digits whose value is at most 32 is read by
`dtoi` in full. -/
theorem dtoi_digits {s : List Char} {n : Nat} (hne : s ≠ []) (hd : ∀ c ∈ s, isDigit c = true)
    (hv : decimalValue s 0 = n) (hn : n ≤ 32) : dtoi s = (n, s.length, true) := by
  have hlen : 0 < s.length := List.length_pos.mpr hne
  have := dtoiLoop_digits s 0 0 hd (by rw [hv]; unfold big; omega) (by omega)
  simpa [dtoi, hv] using this

theorem dtoiLoop_all_digits :
    ∀ (s : List Char) (acc i v : Nat), dtoiLoop s acc i = (v, i + s.length, true) →
      ∀ c ∈ s, isDigit c = true := by
  intro s
  induction s with
  | nil => intros; simp_all
  | cons c cs ih =>
    intro acc i v h d hd
    rw [dtoiLoop] at h
    split_ifs at h with h1 h2 h3
    · simp at h
    · rcases List.mem_cons.mp hd with rfl | hd
      · exact h1
      · exact ih _ (i + 1) v (by rw [h]; simp; omega) d hd
    · simp at h
    · simp at h

theorem contains_slash_append (a m : List Char) : (a ++ '/' :: m).contains '/' = true := by
  simp

theorem takeWhile_slash : ∀ (a m : List Char), '/' ∉ a →
    (a ++ '/' :: m).takeWhile (fun c => decide (c ≠ '/')) = a := by
  intro a
  induction a with
  | nil => intro m _; simp
  | cons c cs ih =>
    intro m h
    simp only [List.mem_cons, not_or] at h
    have hc : decide (c ≠ '/') = true := decide_eq_true fun e => h.1 e.symm
    rw [List.cons_append, List.takeWhile_cons]
    simp only [hc, if_true, ih m h.2]

theorem dropWhile_slash : ∀ (a m : List Char), '/' ∉ a →
    (a ++ '/' :: m).dropWhile (fun c => decide (c ≠ '/')) = '/' :: m := by
  intro a
  induction a with
  | nil => intro m _; simp
  | cons c cs ih =>
    intro m h
    simp only [List.mem_cons, not_or] at h
    have hc : decide (c ≠ '/') = true := decide_eq_true fun e => h.1 e.symm
    rw [List.cons_append, List.dropWhile_cons]
    simp only [hc, if_true, ih m h.2]

/-- `ParseCIDR` on `a/m` for an IPv4 text `a` and a mask text read as `n ≤ 32`. -/
theorem ParseCIDR_v4 {a m : List Char} {f : List Nat} {n : Nat}
    (ha : ParseAddr a = some (Addr.v4 f)) (hm : dtoi m = (n, m.length, true)) (hn : n ≤ 32) :
    ParseCIDR (a ++ '/' :: m) =
      some (v4InV6Lead ++ f,
        { IP := IPMask (v4InV6Lead ++ f) (CIDRMask n 32), Mask := CIDRMask n 32 }) := by
  have hs := ParseAddr_v4_no_slash ha
  unfold ParseCIDR
  rw [if_neg (by simp)]
  simp only [takeWhile_slash a m hs, dropWhile_slash a m hs, List.drop_succ_cons, List.drop_zero,
    ha, hm, Addr.Zone, Addr.BitLen, Addr.As16]
  simp [hn]

/-! ## Facts about masks and rendering -/

theorem To4_lead (a0 a1 a2 a3 : Nat) :
    To4 (v4InV6Lead ++ [a0, a1, a2, a3]) = [a0, a1, a2, a3] := by
  simp [To4, v4InV6Lead, isZeros]

theorem To4_four (b0 b1 b2 b3 : Nat) : To4 [b0, b1, b2, b3] = [b0, b1, b2, b3] := by
  simp [To4]

theorem CIDRMask_eq {n : Nat} (hn : n ≤ 32) :
    CIDRMask n 32 = [octet (netmaskValue n) 0, octet (netmaskValue n) 1,
      octet (netmaskValue n) 2, octet (netmaskValue n) 3] := by
  interval_cases n <;> decide

theorem simpleMaskLength_CIDRMask {n : Nat} (hn : n ≤ 32) :
    simpleMaskLength (CIDRMask n 32) = (n : Int) := by
  interval_cases n <;> decide

theorem Size_CIDRMask {n : Nat} (hn : n ≤ 32) : (Size (CIDRMask n 32)).1 = (n : Int) := by
  have h := simpleMaskLength_CIDRMask hn
  unfold Size
  rw [h, if_neg (by omega)]

theorem IPMask_lead (a0 a1 a2 a3 m0 m1 m2 m3 : Nat) :
    IPMask (v4InV6Lead ++ [a0, a1, a2, a3]) [m0, m1, m2, m3] =
      [a0 &&& m0, a1 &&& m1, a2 &&& m2, a3 &&& m3] := by
  simp [IPMask, v4InV6Lead]

theorem IPString_four (b0 b1 b2 b3 : Nat) :
    IPString [b0, b1, b2, b3] = dottedQuad b0 b1 b2 b3 := by
  simp [IPString, To4, string4, dottedQuad]

theorem IPNetString_four (b0 b1 b2 b3 : Nat) {n : Nat} (hn : n ≤ 32) :
    IPNetString { IP := [b0, b1, b2, b3], Mask := CIDRMask n 32 } =
      dottedQuad b0 b1 b2 b3 ++ "/" ++ toString n := by
  have hs := simpleMaskLength_CIDRMask hn
  have hl : (CIDRMask n 32).length = 4 := by rw [CIDRMask_eq hn]; rfl
  unfold IPNetString networkNumberAndMask
  simp only [To4_four, hl]
  simp [hs, IPString_four]

theorem index_four (x0 x1 x2 x3 : Nat) :
    index [x0, x1, x2, x3] 0 = Except.ok x0 ∧ index [x0, x1, x2, x3] 1 = Except.ok x1 ∧
      index [x0, x1, x2, x3] 2 = Except.ok x2 ∧ index [x0, x1, x2, x3] 3 = Except.ok x3 := by
  simp [index, pure, Except.pure]

theorem octet_xor {n : Nat} (hn : n ≤ 32) (k : Nat) :
    octet (netmaskValue n) k ^^^ 255 = 255 - octet (netmaskValue n) k := by
  have h3 : octet (netmaskValue n) k = octet (netmaskValue n) (min k 3) := by
    unfold octet
    congr 3
    omega
  rw [h3]
  have hk : min k 3 ≤ 3 := Nat.min_le_right _ _
  generalize min k 3 = j at hk
  interval_cases n <;> interval_cases j <;> decide

theorem shift_total {n : Nat} (hn : n ≤ 32) :
    1 <<< (32 - (n : Int)).toNat % 2 ^ 64 = 2 ^ (32 - n) := by
  have h : (32 - (n : Int)).toNat = 32 - n := by omega
  rw [h, Nat.one_shiftLeft]
  exact Nat.mod_eq_of_lt (Nat.pow_lt_pow_right (by norm_num) (by omega))

theorem maxUsable_eq {n : Nat} (hn : n ≤ 32) :
    (if (n : Int) = 32 then 1 else if (n : Int) = 31 then 2
      else (2 ^ (32 - n) + 2 ^ 64 - 2) % 2 ^ 64) =
    (if n = 32 then 1 else if n = 31 then 2 else 2 ^ (32 - n) - 2) := by
  interval_cases n <;> decide

theorem calculateCIDR_v4 (a m : String) (a0 a1 a2 a3 n : Nat)
    (ha : ParseAddr a.toList = some (Addr.v4 [a0, a1, a2, a3]))
    (hm : dtoi m.toList = (n, m.toList.length, true)) (hn : n ≤ 32) :
    calculateCIDR a m = Except.ok
      { Netmask := dottedQuad (octet (netmaskValue n) 0) (octet (netmaskValue n) 1)
          (octet (netmaskValue n) 2) (octet (netmaskValue n) 3)
        Wildcard := dottedQuad (255 - octet (netmaskValue n) 0) (255 - octet (netmaskValue n) 1)
          (255 - octet (netmaskValue n) 2) (255 - octet (netmaskValue n) 3)
        TotalAddresses := toString (2 ^ (32 - n))
        MaxAddresses := toString (if n = 32 then 1 else if n = 31 then 2 else 2 ^ (32 - n) - 2)
        Network := dottedQuad (a0 &&& octet (netmaskValue n) 0) (a1 &&& octet (netmaskValue n) 1)
          (a2 &&& octet (netmaskValue n) 2) (a3 &&& octet (netmaskValue n) 3)
        CIDRNotation := dottedQuad (a0 &&& octet (netmaskValue n) 0)
          (a1 &&& octet (netmaskValue n) 1) (a2 &&& octet (netmaskValue n) 2)
          (a3 &&& octet (netmaskValue n) 3) ++ "/" ++ toString n
        AddrRange := dottedQuad (a0 &&& octet (netmaskValue n) 0)
          (a1 &&& octet (netmaskValue n) 1) (a2 &&& octet (netmaskValue n) 2)
          (a3 &&& octet (netmaskValue n) 3) ++ " - " ++
          dottedQuad ((a0 &&& octet (netmaskValue n) 0) ||| (255 - octet (netmaskValue n) 0))
            ((a1 &&& octet (netmaskValue n) 1) ||| (255 - octet (netmaskValue n) 1))
            ((a2 &&& octet (netmaskValue n) 2) ||| (255 - octet (netmaskValue n) 2))
            ((a3 &&& octet (netmaskValue n) 3) ||| (255 - octet (netmaskValue n) 3))
        Error := "" } := by
  have hane : a ≠ "" := by
    rintro rfl
    exact ParseAddr_ne_nil ha rfl
  have hmne : m ≠ "" := by
    rintro rfl
    simp [dtoi, dtoiLoop] at hm
  have hp := ParseCIDR_v4 ha hm hn
  have hl : (a ++ "/" ++ m).toList = a.toList ++ '/' :: m.toList := by simp
  have hsz := Size_CIDRMask hn
  have hnet := IPNetString_four (a0 &&& octet (netmaskValue n) 0) (a1 &&& octet (netmaskValue n) 1)
    (a2 &&& octet (netmaskValue n) 2) (a3 &&& octet (netmaskValue n) 3) hn
  unfold calculateCIDR
  rw [if_neg (by simp [hane, hmne])]
  simp only [hl, hp, To4_lead, hsz, hnet]
  rw [CIDRMask_eq hn] at hnet ⊢
  simp only [IPMask_lead, To4_four, hnet, IPString_four]
  simp only [List.length_cons, List.length_nil, Nat.zero_add, Nat.reduceAdd, Nat.sub_self,
    List.drop_zero, index_four, bind, Except.bind]
  rw [if_neg (by simp), if_neg (by omega), if_neg (by omega)]
  simp only [octet_xor hn, shift_total hn, maxUsable_eq hn, dottedQuad]
  rfl

theorem and_mod_two_pow_eq_zero (x m j : Nat) (h : m % 2 ^ j = 0) : (x &&& m) % 2 ^ j = 0 := by
  apply Nat.eq_of_testBit_eq
  intro i
  have hm := congrArg (fun v => Nat.testBit v i) h
  simp only [Nat.testBit_mod_two_pow, Nat.zero_testBit] at hm
  simp only [Nat.testBit_mod_two_pow, Nat.testBit_and, Nat.zero_testBit]
  by_cases hi : i < j
  · simp only [hi, decide_True, Bool.true_and] at hm
    simp [hm]
  · simp [hi]

/-- Number of low zero bits of octet `k` of the netmask of prefix length `n`. -/
theorem octet_netmask_mod {n : Nat} (hn : n ≤ 32) (k : Nat) (hk : k < 4) :
    octet (netmaskValue n) k % 2 ^ (8 - min 8 (n - 8 * k)) = 0 := by
  interval_cases n <;> interval_cases k <;> decide

theorem and_octet_lt (x v k : Nat) : x &&& octet v k < 256 :=
  Nat.lt_of_le_of_lt Nat.and_le_right (Nat.mod_lt _ (by norm_num))

theorem network_host_bits_zero (a0 a1 a2 a3 : Nat) {n : Nat} (hn : n ≤ 32) :
    value32 (a0 &&& octet (netmaskValue n) 0) (a1 &&& octet (netmaskValue n) 1)
      (a2 &&& octet (netmaskValue n) 2) (a3 &&& octet (netmaskValue n) 3) % 2 ^ (32 - n) = 0 := by
  have h0 := and_mod_two_pow_eq_zero a0 _ _ (octet_netmask_mod hn 0 (by omega))
  have h1 := and_mod_two_pow_eq_zero a1 _ _ (octet_netmask_mod hn 1 (by omega))
  have h2 := and_mod_two_pow_eq_zero a2 _ _ (octet_netmask_mod hn 2 (by omega))
  have h3 := and_mod_two_pow_eq_zero a3 _ _ (octet_netmask_mod hn 3 (by omega))
  have l0 := and_octet_lt a0 (netmaskValue n) 0
  have l1 := and_octet_lt a1 (netmaskValue n) 1
  have l2 := and_octet_lt a2 (netmaskValue n) 2
  have l3 := and_octet_lt a3 (netmaskValue n) 3
  generalize a0 &&& octet (netmaskValue n) 0 = b0 at h0 l0 ⊢
  generalize a1 &&& octet (netmaskValue n) 1 = b1 at h1 l1 ⊢
  generalize a2 &&& octet (netmaskValue n) 2 = b2 at h2 l2 ⊢
  generalize a3 &&& octet (netmaskValue n) 3 = b3 at h3 l3 ⊢
  unfold value32
  interval_cases n <;> norm_num at h0 h1 h2 h3 ⊢ <;> omega

theorem netmaskValue_testBit :
    ∀ n, n < 33 → ∀ i, i < 32 → (netmaskValue n).testBit i = decide (32 - n ≤ i) := by
  decide

theorem dtoi_toString {n : Nat} (hn : n ≤ 32) :
    dtoi (toString n).toList = (n, (toString n).toList.length, true) := by
  interval_cases n <;> decide

theorem isDigit_slash : isDigit '/' = false := by decide

theorem split_first_slash : ∀ (a : List Char), '/' ∈ a →
    ∃ p q, a = p ++ '/' :: q ∧ '/' ∉ p := by
  intro a
  induction a with
  | nil => intro h; simp at h
  | cons c cs ih =>
    intro h
    by_cases hc : c = '/'
    · exact ⟨[], cs, by simp [hc], by simp⟩
    · have hcs : '/' ∈ cs := by
        rcases List.mem_cons.mp h with e | e
        · exact absurd e.symm hc
        · exact e
      obtain ⟨p, q, hpq, hp⟩ := ih hcs
      refine ⟨c :: p, q, by simp [hpq], ?_⟩
      simp only [List.mem_cons, not_or]
      exact ⟨fun e => hc e.symm, hp⟩

/-- A mask text with a `/` in it is never read in full by `dtoi`. -/
theorem dtoi_slash {s : List Char} (h : '/' ∈ s) :
    (dtoi s).2.2 = true → (dtoi s).2.1 ≠ s.length := by
  intro hok hlen
  have hd : dtoiLoop s 0 0 = ((dtoi s).1, 0 + s.length, true) := by
    rw [Nat.zero_add, ← hlen, ← hok]
    rfl
  have := dtoiLoop_all_digits s 0 0 _ hd '/' h
  rw [isDigit_slash] at this
  cases this

/-- When the address text is no IP literal, the combined text is no CIDR block. -/
theorem ParseCIDR_none_of_ParseIP_none {a m : List Char} (h : ParseIP a = none) :
    ParseCIDR (a ++ '/' :: m) = none := by
  unfold ParseCIDR
  rw [if_neg (by simp)]
  by_cases hs : '/' ∈ a
  · obtain ⟨p, q, rfl, hp⟩ := split_first_slash a hs
    have hmask : '/' ∈ q ++ '/' :: m := by simp
    have hd := dtoi_slash hmask
    simp only [List.append_assoc, List.cons_append, takeWhile_slash p _ hp,
      dropWhile_slash p _ hp, List.drop_succ_cons, List.drop_zero]
    split
    · rfl
    · split_ifs with h1 h2
      · rfl
      · rfl
      · exfalso
        simp only [not_or, not_not] at h2
        exact hd (by simpa using h2.1) h2.2.1
  · simp only [takeWhile_slash a m hs, dropWhile_slash a m hs, List.drop_succ_cons,
      List.drop_zero]
    unfold ParseIP at h
    split at h
    · rename_i hpa
      simp [hpa]
    · rename_i addr hpa
      split_ifs at h with hz
      simp [hpa, hz]

theorem toList_append_slash (a m : String) :
    (a ++ "/" ++ m).toList = a.toList ++ '/' :: m.toList := by
  simp

/-- Every record `calculateCIDR` returns is the default record, one of the
three error records, or a record without error. -/
theorem calculateCIDR_ok_cases {a m : String} {r : cidrInfo}
    (h : calculateCIDR a m = Except.ok r) :
    (r = {} ∧ (a = "" ∨ m = "")) ∨
    (r = { Error := "Invalid IP Address" } ∧ ParseIP a.toList = none) ∨
    (r = { Error := "Invalid Mask" } ∧ ParseIP a.toList ≠ none) ∨
    (r = { Error := "Only IPv4 addresses are supported." } ∧ ParseIP a.toList ≠ none) ∨
    (r.Error = "" ∧ ParseIP a.toList ≠ none ∧ a ≠ "" ∧ m ≠ "") := by
  unfold calculateCIDR at h
  by_cases h1 : a = "" ∨ m = ""
  · rw [if_pos h1] at h
    exact Or.inl ⟨(Except.ok.inj h).symm, h1⟩
  · rw [if_neg h1] at h
    right
    cases hp : ParseCIDR (a ++ "/" ++ m).toList with
    | none =>
      simp only [hp] at h
      by_cases h2 : ParseIP a.toList = none
      · rw [if_pos h2] at h
        exact Or.inl ⟨(Except.ok.inj h).symm, h2⟩
      · rw [if_neg h2] at h
        exact Or.inr (Or.inl ⟨(Except.ok.inj h).symm, h2⟩)
    | some x =>
      obtain ⟨ip, ipnet⟩ := x
      have h2 : ParseIP a.toList ≠ none := by
        intro hn
        rw [toList_append_slash, ParseCIDR_none_of_ParseIP_none hn] at hp
        cases hp
      simp only [hp] at h
      right
      right
      by_cases h3 : To4 ip = []
      · rw [if_pos h3] at h
        exact Or.inl ⟨(Except.ok.inj h).symm, h2⟩
      · rw [if_neg h3] at h
        right
        simp only [bind, Except.bind] at h
        simp only [not_or] at h1
        refine ⟨?_, h2, h1.1, h1.2⟩
        repeat' split at h
        all_goals first
          | (cases h; rfl)
          | cases h

/-- The record returned when the address text is no IP literal. -/
theorem calculateCIDR_no_ip_literal {a m : String} (ha : a ≠ "") (hm : m ≠ "")
    (hip : ParseIP a.toList = none) :
    calculateCIDR a m = Except.ok { Error := "Invalid IP Address" } := by
  unfold calculateCIDR
  rw [if_neg (by simp [ha, hm]), toList_append_slash, ParseCIDR_none_of_ParseIP_none hip]
  simp only [hip, if_true]
  rfl

/-! ## Canonical address texts and the bounded loops -/

theorem parseIPv4FieldsLoop_octet_dot (b : Nat) (hb : b < 256) (c : Char) (rest : List Char)
    (prev : Option Char) (pos : Nat) (f : List Nat) :
    parseIPv4FieldsLoop ((toString b).toList ++ '.' :: c :: rest) prev 0 pos 0 f =
      if pos = 3 then none
      else parseIPv4FieldsLoop (c :: rest) (some '.') 0 (pos + 1) 0 (f.set pos b) := by
  interval_cases b <;> rfl

theorem parseIPv4FieldsLoop_octet_end (b : Nat) (hb : b < 256) (prev : Option Char)
    (pos : Nat) (f : List Nat) :
    parseIPv4FieldsLoop (toString b).toList prev 0 pos 0 f =
      if pos < 3 then none else some (f.set 3 b) := by
  interval_cases b <;> rfl

theorem ParseAddrScan_octet_dot (s : List Char) (b : Nat) (hb : b < 256) (rest : List Char) :
    ParseAddrScan s ((toString b).toList ++ '.' :: rest) = parseIPv4 s := by
  interval_cases b <;> rfl

theorem toString_octet_cons (b : Nat) (hb : b < 256) :
    ∃ c rest, (toString b).toList = c :: rest := by
  interval_cases b <;> exact ⟨_, _, rfl⟩

theorem dottedQuad_toList (a0 a1 a2 a3 : Nat) :
    (dottedQuad a0 a1 a2 a3).toList =
      (toString a0).toList ++ '.' :: ((toString a1).toList ++ '.' ::
        ((toString a2).toList ++ '.' :: (toString a3).toList)) := by
  simp [dottedQuad]

/-- The dotted-quad rendering of four octets is read back by `ParseAddr` as
these four octets. -/
theorem ParseAddr_dottedQuad (a0 a1 a2 a3 : Nat) (h0 : a0 < 256) (h1 : a1 < 256)
    (h2 : a2 < 256) (h3 : a3 < 256) :
    ParseAddr (dottedQuad a0 a1 a2 a3).toList = some (Addr.v4 [a0, a1, a2, a3]) := by
  obtain ⟨c1, r1, e1⟩ := toString_octet_cons a1 h1
  obtain ⟨c2, r2, e2⟩ := toString_octet_cons a2 h2
  obtain ⟨c3, r3, e3⟩ := toString_octet_cons a3 h3
  have hscan := ParseAddrScan_octet_dot (dottedQuad a0 a1 a2 a3).toList a0 h0
    ((toString a1).toList ++ '.' :: ((toString a2).toList ++ '.' :: (toString a3).toList))
  have s0 := parseIPv4FieldsLoop_octet_dot a0 h0 c1 (r1 ++ '.' :: (c2 :: r2 ++ '.' :: c3 :: r3))
    none 0 [0, 0, 0, 0]
  have s1 := parseIPv4FieldsLoop_octet_dot a1 h1 c2 (r2 ++ '.' :: c3 :: r3)
    (some '.') 1 [a0, 0, 0, 0]
  have s2 := parseIPv4FieldsLoop_octet_dot a2 h2 c3 r3 (some '.') 2 [a0, a1, 0, 0]
  have s3 := parseIPv4FieldsLoop_octet_end a3 h3 (some '.') 3 [a0, a1, a2, 0]
  unfold ParseAddr
  rw [← dottedQuad_toList] at hscan
  rw [hscan, parseIPv4, parseIPv4Fields, dottedQuad_toList]
  rw [e1, e2, e3] at *
  simp only [List.cons_append, List.append_assoc] at s0 s1 s2 s3 ⊢
  rw [s0]
  simp only [Nat.reduceEqDiff, if_false, List.set_cons_zero, Nat.zero_add]
  rw [s1]
  simp only [Nat.reduceEqDiff, if_false, List.set_cons_succ, List.set_cons_zero, Nat.reduceAdd]
  rw [s2]
  simp only [Nat.reduceEqDiff, if_false, List.set_cons_succ, List.set_cons_zero, Nat.reduceAdd]
  rw [s3]
  simp

/-- The loop of `parseIPv6` is left through its own condition: once the turn
count covers `i` up to 16, one more turn changes nothing. -/
theorem parseIPv6Loop_turns (t : Nat) :
    ∀ (s : List Char) (ip : List Nat) (i : Nat) (e : Option Nat), 16 ≤ i + 2 * t →
      parseIPv6Loop (t + 1) s ip i e = parseIPv6Loop t s ip i e := by
  induction t with
  | zero =>
    intro s ip i e h
    have hi : ¬ i < 16 := by omega
    rw [parseIPv6Loop, parseIPv6Loop, if_pos hi]
  | succ t ih =>
    intro s ip i e h
    have ih1 := fun s ip e => ih s ip (i + 2) e (by omega)
    conv_lhs => rw [parseIPv6Loop]
    conv_rhs => rw [parseIPv6Loop]
    simp only [ih1]

/-- The loop counting the leading ones of a byte is left through its own
condition within 8 turns. -/
theorem leadingOnes_done (v : Nat) (hv : v < 256) : (leadingOnes 8 v).2 &&& 0x80 = 0 := by
  interval_cases v <;> rfl

/-- On the IPv4-mapped address text `::ffff:1.2.3.4` every mask text that is the
decimal form of a length accepted for IPv6 makes `calculateCIDR` panic. -/
theorem calculateCIDR_mapped_address_never_returns (n : Nat) (hn : n ≤ 128) :
    ∃ p, calculateCIDR "::ffff:1.2.3.4" (toString n) = Except.error p := by
  interval_cases n <;> exact ⟨_, rfl⟩

/-! ## Returned records -/

theorem toDigitsCore_ne_nil (b : Nat) : ∀ (fuel n : Nat) (ds : List Char),
    (0 < fuel ∨ ds ≠ []) → Nat.toDigitsCore b fuel n ds ≠ [] := by
  intro fuel
  induction fuel with
  | zero =>
    intro n ds h
    rcases h with h | h
    · omega
    · simpa [Nat.toDigitsCore] using h
  | succ f ih =>
    intro n ds _
    rw [Nat.toDigitsCore]
    split_ifs
    · simp
    · exact ih _ _ (Or.inr (by simp))

/-- The decimal rendering of a number is never empty. -/
theorem toString_nat_ne_empty (n : Nat) : toString n ≠ "" := by
  intro h
  have h1 : (toString n).data = [] := by rw [h]
  have h2 : Nat.toDigits 10 n = [] := by
    simpa [toString, Nat.repr, List.asString] using h1
  exact toDigitsCore_ne_nil 10 (n + 1) n [] (Or.inl (by omega)) h2

theorem append_ne_empty_right (s t : String) (ht : t ≠ "") : s ++ t ≠ "" := by
  intro h
  apply ht
  have h1 : (s ++ t).data = [] := by rw [h]
  rw [String.data_append, List.append_eq_nil] at h1
  exact String.ext h1.2

theorem append_ne_empty_left (s t : String) (hs : s ≠ "") : s ++ t ≠ "" := by
  intro h
  apply hs
  have h1 : (s ++ t).data = [] := by rw [h]
  rw [String.data_append, List.append_eq_nil] at h1
  exact String.ext h1.1

theorem dottedQuad_ne_empty (b0 b1 b2 b3 : Nat) : dottedQuad b0 b1 b2 b3 ≠ "" :=
  append_ne_empty_right _ _ (toString_nat_ne_empty b3)

theorem parseIPv4FieldsLoop_lt :
    ∀ (s : List Char) (prev : Option Char) (val pos dl : Nat) (f r : List Nat),
      val ≤ 255 → (∀ x ∈ f, x < 256) → parseIPv4FieldsLoop s prev val pos dl f = some r →
      ∀ x ∈ r, x < 256 := by
  intro s
  induction s with
  | nil =>
    intro prev val pos dl f r hv hf h x hx
    rw [parseIPv4FieldsLoop] at h
    split_ifs at h
    cases h
    rcases List.mem_or_eq_of_mem_set hx with h1 | h1
    · exact hf x h1
    · omega
  | cons c cs ih =>
    intro prev val pos dl f r hv hf h
    rw [parseIPv4FieldsLoop] at h
    split_ifs at h with h1 h2 h3 h4 h5 h6
    · exact ih _ _ _ _ _ _ (by omega) hf h
    · refine ih _ _ _ _ _ _ (by omega) ?_ h
      intro x hx
      rcases List.mem_or_eq_of_mem_set hx with e | e
      · exact hf x e
      · omega

/-- The octets of a parsed IPv4 address text are below 256. -/
theorem ParseAddr_v4_lt {s : List Char} {a0 a1 a2 a3 : Nat}
    (h : ParseAddr s = some (Addr.v4 [a0, a1, a2, a3])) :
    a0 < 256 ∧ a1 < 256 ∧ a2 < 256 ∧ a3 < 256 := by
  have hf := ParseAddrScan_v4 s s _ h
  have hl := parseIPv4FieldsLoop_lt s none 0 0 0 [0, 0, 0, 0] _ (by omega)
    (by intro x hx; simp at hx; omega) hf
  exact ⟨hl a0 (by simp), hl a1 (by simp), hl a2 (by simp), hl a3 (by simp)⟩

theorem dtoiLoop_value :
    ∀ (s : List Char) (acc i v : Nat), dtoiLoop s acc i = (v, i + s.length, true) →
      v = decimalValue s acc := by
  intro s
  induction s with
  | nil =>
    intro acc i v h
    rw [dtoiLoop] at h
    split_ifs at h
    · simp at h
    · simp only [Prod.mk.injEq] at h
      simp [decimalValue, h.1]
  | cons c cs ih =>
    intro acc i v h
    rw [dtoiLoop] at h
    split_ifs at h with h1 h2 h3
    · simp at h
    · have := ih _ (i + 1) v (by rw [h]; simp; omega)
      simpa [decimalValue] using this
    · simp at h
    · simp at h

/-- What `dtoi` reads in full with a result of at most 32 is a mask text
denoting that length. -/
theorem denotesLength_of_dtoi {s : List Char} {n : Nat}
    (h : dtoi s = (n, s.length, true)) (hn : n ≤ 32) :
    denotesLength s ∧ decimalValue s 0 = n := by
  have h0 : dtoiLoop s 0 0 = (n, 0 + s.length, true) := by rw [Nat.zero_add]; exact h
  have hv := dtoiLoop_value s 0 0 n h0
  refine ⟨⟨?_, dtoiLoop_all_digits s 0 0 n h0, by omega⟩, hv.symm⟩
  rintro rfl
  simp [dtoi, dtoiLoop] at h

theorem To4_length (x : List Nat) : To4 x = [] ∨ (To4 x).length = 4 := by
  unfold To4
  split_ifs with h1 h2
  · exact Or.inr h1
  · right
    simp [h2.1]
  · exact Or.inl rfl

theorem IPString_ne_empty_of_length {l : List Nat} (h : l.length = 4) : IPString l ≠ "" := by
  have h4 : To4 l = l := by simp [To4, h]
  unfold IPString
  rw [if_neg (by omega), if_neg (by omega), h4, if_pos h]
  exact append_ne_empty_right _ _ (toString_nat_ne_empty _)

theorem IPString_To4_ne_empty {x : List Nat} {v : Nat}
    (h : index (To4 x) 0 = Except.ok v) : IPString (To4 x) ≠ "" := by
  rcases To4_length x with h0 | h4
  · rw [h0] at h
    simp [index, throw, throwThe, MonadExceptOf.throw] at h
  · exact IPString_ne_empty_of_length h4

theorem IPNetString_ne_empty (n : IPNet) : IPNetString n ≠ "" := by
  unfold IPNetString
  split
  · exact append_ne_empty_left _ _ (append_ne_empty_right _ _ (by decide))
  · split_ifs
    · exact append_ne_empty_left _ _ (append_ne_empty_right _ _ (by decide))
    · exact append_ne_empty_left _ _ (append_ne_empty_right _ _ (by decide))

/-- A record returned for non-empty texts without an error has all seven data
fields populated. -/
theorem calculateCIDR_ok_populated {a m : String} {r : cidrInfo}
    (h : calculateCIDR a m = Except.ok r) (ha : a ≠ "") (hm : m ≠ "") (he : r.Error = "") :
    populated r := by
  unfold calculateCIDR at h
  rw [if_neg (by simp [ha, hm])] at h
  cases hp : ParseCIDR (a ++ "/" ++ m).toList with
  | none =>
    simp only [hp] at h
    split_ifs at h <;> cases h <;> exact absurd he (by decide)
  | some x =>
    obtain ⟨ip, ipnet⟩ := x
    simp only [hp] at h
    by_cases h3 : To4 ip = []
    · rw [if_pos h3] at h
      cases h
      exact absurd he (by decide)
    · rw [if_neg h3] at h
      simp only [bind, Except.bind] at h
      repeat' split at h
      all_goals cases h
      all_goals
        have hb0 : IPString (To4 ipnet.IP) ≠ "" := by
          apply IPString_To4_ne_empty
          assumption
        refine ⟨?_, ?_, ?_, ?_, ?_, ?_, ?_⟩ <;> dsimp only
        · exact append_ne_empty_right _ _ (toString_nat_ne_empty _)
        · exact IPString_ne_empty_of_length rfl
        · exact toString_nat_ne_empty _
        · exact toString_nat_ne_empty _
        · exact hb0
        · exact IPNetString_ne_empty _
        · refine append_ne_empty_right _ _ ?_
          exact IPString_ne_empty_of_length rfl

/-! ## Mask texts and CIDR blocks -/

theorem ParseCIDR_slash_in_addr {a m : List Char} (hs : '/' ∈ a) :
    ParseCIDR (a ++ '/' :: m) = none := by
  unfold ParseCIDR
  rw [if_neg (by simp)]
  obtain ⟨p, q, rfl, hp⟩ := split_first_slash a hs
  have hmask : '/' ∈ q ++ '/' :: m := by simp
  have hd := dtoi_slash hmask
  simp only [List.append_assoc, List.cons_append, takeWhile_slash p _ hp,
    dropWhile_slash p _ hp, List.drop_succ_cons, List.drop_zero]
  split
  · rfl
  · split_ifs with h1 h2
    · rfl
    · rfl
    · exfalso
      simp only [not_or, not_not] at h2
      exact hd (by simpa using h2.1) h2.2.1

/-- What a successful `ParseCIDR` on `a/m` says about `a` and `m`. -/
theorem ParseCIDR_some {a m : List Char} {x : List Nat × IPNet}
    (h : ParseCIDR (a ++ '/' :: m) = some x) :
    ∃ addr, ParseAddr a = some addr ∧ addr.Zone = [] ∧ x.1 = addr.As16 ∧
      dtoi m = ((dtoi m).1, m.length, true) ∧ (dtoi m).1 ≤ addr.BitLen := by
  by_cases hs : '/' ∈ a
  · rw [ParseCIDR_slash_in_addr hs] at h
    cases h
  · unfold ParseCIDR at h
    rw [if_neg (by simp)] at h
    simp only [takeWhile_slash a m hs, dropWhile_slash a m hs, List.drop_succ_cons,
      List.drop_zero] at h
    split at h
    · cases h
    · rename_i addr hpa
      split_ifs at h with h1 h2
      simp only [not_or, not_not, Nat.not_lt] at h2
      simp only [Option.some.injEq] at h
      refine ⟨addr, hpa, by simpa using h1, by rw [← h], ?_, by simpa using h2.2.2⟩
      have e1 : (dtoi m).2.1 = m.length := h2.2.1
      have e2 : (dtoi m).2.2 = true := by simpa using h2.1
      rw [← e1, ← e2]

theorem ParseIP_v4 {a : List Char} {f : List Nat} (ha : ParseAddr a = some (Addr.v4 f)) :
    ParseIP a = some (v4InV6Lead ++ f) := by
  simp [ParseIP, ha, Addr.Zone, Addr.As16]

/-- For an IPv4 address text, a mask text that does not denote a length in
0..32 makes the combined text no CIDR block. -/
theorem ParseCIDR_v4_none {a m : List Char} {f : List Nat}
    (ha : ParseAddr a = some (Addr.v4 f)) (hm : ¬ denotesLength m) :
    ParseCIDR (a ++ '/' :: m) = none := by
  cases hp : ParseCIDR (a ++ '/' :: m) with
  | none => rfl
  | some x =>
    exfalso
    obtain ⟨addr, h1, _, _, h4, h5⟩ := ParseCIDR_some hp
    rw [ha] at h1
    cases h1
    exact hm (denotesLength_of_dtoi h4 h5).1

theorem calculateCIDR_invalid_mask {a m : String} {f : List Nat}
    (ha : ParseAddr a.toList = some (Addr.v4 f)) (hm : m ≠ "")
    (hd : ¬ denotesLength m.toList) :
    calculateCIDR a m = Except.ok { Error := "Invalid Mask" } := by
  have hane : a ≠ "" := by
    rintro rfl
    exact ParseAddr_ne_nil ha rfl
  unfold calculateCIDR
  rw [if_neg (by simp [hane, hm]), toList_append_slash, ParseCIDR_v4_none ha hd]
  simp only [ParseIP_v4 ha]
  rfl

/-! ## Network and broadcast octets -/

theorem octet_netmask_form {n : Nat} (hn : n ≤ 32) (k : Nat) (hk : k < 4) :
    octet (netmaskValue n) k = 256 - 2 ^ hostBits n k := by
  interval_cases n <;> interval_cases k <;> decide

theorem and_mask_form (z : Nat) (hz : z ≤ 8) (a : Nat) (ha : a < 256) :
    a &&& (256 - 2 ^ z) = a / 2 ^ z * 2 ^ z ∧
    (a &&& (256 - 2 ^ z)) ||| (255 - (256 - 2 ^ z)) = a / 2 ^ z * 2 ^ z + (2 ^ z - 1) := by
  interval_cases z <;> interval_cases a <;> exact ⟨rfl, rfl⟩

/-- Arithmetic form of the network and broadcast octets. -/
theorem octet_forms {n : Nat} (hn : n ≤ 32) (k : Nat) (hk : k < 4) (a : Nat) (ha : a < 256) :
    networkOctet n k a = a / 2 ^ hostBits n k * 2 ^ hostBits n k ∧
    broadcastOctet n k a = a / 2 ^ hostBits n k * 2 ^ hostBits n k + (2 ^ hostBits n k - 1) := by
  have hz : hostBits n k ≤ 8 := by unfold hostBits; omega
  have h := and_mask_form (hostBits n k) hz a ha
  unfold broadcastOctet networkOctet
  rw [octet_xor hn, octet_netmask_form hn k hk]
  exact h

theorem networkOctet_lt (n k a : Nat) : networkOctet n k a < 256 :=
  and_octet_lt a (netmaskValue n) k

theorem broadcastOctet_lt {n : Nat} (hn : n ≤ 32) (k a : Nat) : broadcastOctet n k a < 256 := by
  unfold broadcastOctet
  have h1 : networkOctet n k a < 2 ^ 8 := networkOctet_lt n k a
  have h2 : octet (netmaskValue n) k ^^^ 0xff < 2 ^ 8 := by
    rw [octet_xor hn]
    have : octet (netmaskValue n) k < 256 := Nat.mod_lt _ (by norm_num)
    omega
  exact Nat.or_lt_two_pow h1 h2

/-- Each network octet is at most the address octet, which is at most the
broadcast octet; the two differ by the host part of the octet. -/
theorem octet_bounds {n : Nat} (hn : n ≤ 32) (k : Nat) (hk : k < 4) (a : Nat) (ha : a < 256) :
    networkOctet n k a ≤ a ∧ a ≤ broadcastOctet n k a ∧
    broadcastOctet n k a = networkOctet n k a + (2 ^ hostBits n k - 1) := by
  obtain ⟨hN, hB⟩ := octet_forms hn k hk a ha
  have hp : 0 < 2 ^ hostBits n k := Nat.pos_pow_of_pos _ (by norm_num)
  have h1 : a / 2 ^ hostBits n k * 2 ^ hostBits n k ≤ a := Nat.div_mul_le_self _ _
  have h2 : a < a / 2 ^ hostBits n k * 2 ^ hostBits n k + 2 ^ hostBits n k :=
    Nat.lt_div_mul_add hp
  rw [hN, hB]
  omega

/-- The host parts of the four octets add up to the block size less one. -/
theorem hostBits_total {n : Nat} (hn : n ≤ 32) :
    value32 (2 ^ hostBits n 0 - 1) (2 ^ hostBits n 1 - 1) (2 ^ hostBits n 2 - 1)
      (2 ^ hostBits n 3 - 1) + 1 = 2 ^ (32 - n) := by
  interval_cases n <;> rfl

/-- The typed address lies between the network and the broadcast address, and
the range between them holds `2 ^ (32 - n)` addresses. -/
theorem range_arith (a0 a1 a2 a3 n : Nat) (hn : n ≤ 32)
    (h0 : a0 < 256) (h1 : a1 < 256) (h2 : a2 < 256) (h3 : a3 < 256) :
    value32 (networkOctet n 0 a0) (networkOctet n 1 a1) (networkOctet n 2 a2)
        (networkOctet n 3 a3) ≤ value32 a0 a1 a2 a3 ∧
    value32 a0 a1 a2 a3 ≤ value32 (broadcastOctet n 0 a0) (broadcastOctet n 1 a1)
        (broadcastOctet n 2 a2) (broadcastOctet n 3 a3) ∧
    value32 (broadcastOctet n 0 a0) (broadcastOctet n 1 a1) (broadcastOctet n 2 a2)
        (broadcastOctet n 3 a3) -
      value32 (networkOctet n 0 a0) (networkOctet n 1 a1) (networkOctet n 2 a2)
        (networkOctet n 3 a3) + 1 = 2 ^ (32 - n) := by
  obtain ⟨l0, u0, e0⟩ := octet_bounds hn 0 (by omega) a0 h0
  obtain ⟨l1, u1, e1⟩ := octet_bounds hn 1 (by omega) a1 h1
  obtain ⟨l2, u2, e2⟩ := octet_bounds hn 2 (by omega) a2 h2
  obtain ⟨l3, u3, e3⟩ := octet_bounds hn 3 (by omega) a3 h3
  have ht := hostBits_total hn
  unfold value32 at ht ⊢
  generalize 2 ^ (32 - n) = T at ht ⊢
  generalize 2 ^ hostBits n 0 - 1 = w0 at e0 ht
  generalize 2 ^ hostBits n 1 - 1 = w1 at e1 ht
  generalize 2 ^ hostBits n 2 - 1 = w2 at e2 ht
  generalize 2 ^ hostBits n 3 - 1 = w3 at e3 ht
  generalize broadcastOctet n 0 a0 = B0 at u0 e0 ⊢
  generalize broadcastOctet n 1 a1 = B1 at u1 e1 ⊢
  generalize broadcastOctet n 2 a2 = B2 at u2 e2 ⊢
  generalize broadcastOctet n 3 a3 = B3 at u3 e3 ⊢
  generalize networkOctet n 0 a0 = N0 at l0 e0 ⊢
  generalize networkOctet n 1 a1 = N1 at l1 e1 ⊢
  generalize networkOctet n 2 a2 = N2 at l2 e2 ⊢
  generalize networkOctet n 3 a3 = N3 at l3 e3 ⊢
  norm_num at ht ⊢
  omega

/-- With the full length 32 the network and broadcast octets are the address
octet. -/
theorem octets_full_length (k : Nat) (hk : k < 4) (a : Nat) (ha : a < 256) :
    networkOctet 32 k a = a ∧ broadcastOctet 32 k a = a := by
  obtain ⟨hN, hB⟩ := octet_forms (Nat.le_refl 32) k hk a ha
  have hz : hostBits 32 k = 0 := by unfold hostBits; omega
  rw [hz] at hN hB
  simpa using And.intro hN hB

/-- The network address is the typed address with its low `32 - n` bits
cleared: both have the same quotient by `2 ^ (32 - n)`. -/
theorem network_value_div (a0 a1 a2 a3 n : Nat) (hn : n ≤ 32)
    (h0 : a0 < 256) (h1 : a1 < 256) (h2 : a2 < 256) (h3 : a3 < 256) :
    value32 a0 a1 a2 a3 / 2 ^ (32 - n) =
      value32 (networkOctet n 0 a0) (networkOctet n 1 a1) (networkOctet n 2 a2)
        (networkOctet n 3 a3) / 2 ^ (32 - n) := by
  obtain ⟨hle, hub, hsz⟩ := range_arith a0 a1 a2 a3 n hn h0 h1 h2 h3
  have hz := network_host_bits_zero a0 a1 a2 a3 hn
  have hz1 : value32 (networkOctet n 0 a0) (networkOctet n 1 a1) (networkOctet n 2 a2)
      (networkOctet n 3 a3) % 2 ^ (32 - n) = 0 := hz
  have hT : 0 < 2 ^ (32 - n) := Nat.pos_pow_of_pos _ (by norm_num)
  generalize value32 (networkOctet n 0 a0) (networkOctet n 1 a1) (networkOctet n 2 a2)
    (networkOctet n 3 a3) = N at hle hsz hz1 ⊢
  generalize value32 (broadcastOctet n 0 a0) (broadcastOctet n 1 a1) (broadcastOctet n 2 a2)
    (broadcastOctet n 3 a3) = B at hub hsz
  generalize value32 a0 a1 a2 a3 = A at hle hub ⊢
  generalize 2 ^ (32 - n) = T at hsz hz1 hT ⊢
  have hN : N / T * T = N := Nat.div_mul_cancel (Nat.dvd_of_mod_eq_zero hz1)
  apply Nat.div_eq_of_lt_le
  · rw [hN]
    exact hle
  · rw [Nat.succ_mul, hN]
    omega

/-- Two addresses with the same top `n` bits have the same network octets. -/
theorem networkOctet_eq_of_top_bits (a0 a1 a2 a3 b0 b1 b2 b3 n : Nat) (hn : n ≤ 32)
    (ha0 : a0 < 256) (ha1 : a1 < 256) (ha2 : a2 < 256) (ha3 : a3 < 256)
    (hb0 : b0 < 256) (hb1 : b1 < 256) (hb2 : b2 < 256) (hb3 : b3 < 256)
    (h : value32 a0 a1 a2 a3 / 2 ^ (32 - n) = value32 b0 b1 b2 b3 / 2 ^ (32 - n)) :
    networkOctet n 0 a0 = networkOctet n 0 b0 ∧ networkOctet n 1 a1 = networkOctet n 1 b1 ∧
    networkOctet n 2 a2 = networkOctet n 2 b2 ∧ networkOctet n 3 a3 = networkOctet n 3 b3 := by
  have da := network_value_div a0 a1 a2 a3 n hn ha0 ha1 ha2 ha3
  have db := network_value_div b0 b1 b2 b3 n hn hb0 hb1 hb2 hb3
  have za : value32 (networkOctet n 0 a0) (networkOctet n 1 a1) (networkOctet n 2 a2)
      (networkOctet n 3 a3) % 2 ^ (32 - n) = 0 := network_host_bits_zero a0 a1 a2 a3 hn
  have zb : value32 (networkOctet n 0 b0) (networkOctet n 1 b1) (networkOctet n 2 b2)
      (networkOctet n 3 b3) % 2 ^ (32 - n) = 0 := network_host_bits_zero b0 b1 b2 b3 hn
  have hv : value32 (networkOctet n 0 a0) (networkOctet n 1 a1) (networkOctet n 2 a2)
      (networkOctet n 3 a3) =
      value32 (networkOctet n 0 b0) (networkOctet n 1 b1) (networkOctet n 2 b2)
      (networkOctet n 3 b3) := by
    rw [← Nat.div_mul_cancel (Nat.dvd_of_mod_eq_zero za),
      ← Nat.div_mul_cancel (Nat.dvd_of_mod_eq_zero zb), ← da, ← db, h]
  have la0 := networkOctet_lt n 0 a0
  have la1 := networkOctet_lt n 1 a1
  have la2 := networkOctet_lt n 2 a2
  have la3 := networkOctet_lt n 3 a3
  have lb0 := networkOctet_lt n 0 b0
  have lb1 := networkOctet_lt n 1 b1
  have lb2 := networkOctet_lt n 2 b2
  have lb3 := networkOctet_lt n 3 b3
  unfold value32 at hv
  norm_num at hv
  omega

/-! ## IPv6 address texts -/

theorem hexVal_slash : hexVal '/' = none := by decide

theorem hexLoop_split : ∀ (s : List Char) (off acc off1 acc1 : Nat) (rest : List Char),
    hexLoop s off acc = some (off1, acc1, rest) → ∃ pre, s = pre ++ rest ∧ '/' ∉ pre := by
  intro s
  induction s with
  | nil =>
    intro off acc off1 acc1 rest h
    simp only [hexLoop, Option.some.injEq, Prod.mk.injEq] at h
    exact ⟨[], by simp [h.2.2], by simp⟩
  | cons c cs ih =>
    intro off acc off1 acc1 rest h
    rw [hexLoop] at h
    split at h
    · simp only [Option.some.injEq, Prod.mk.injEq] at h
      exact ⟨[], by simp [h.2.2], by simp⟩
    · rename_i d hd
      split_ifs at h
      obtain ⟨pre, hpre, hns⟩ := ih _ _ _ _ _ h
      refine ⟨c :: pre, by simp [hpre], ?_⟩
      simp only [List.mem_cons, not_or]
      refine ⟨?_, hns⟩
      rintro rfl
      rw [hexVal_slash] at hd
      cases hd

/-- A text that the loop of `parseIPv6` reads to its end holds no `/`. -/
theorem parseIPv6Loop_no_slash : ∀ (t : Nat) (s : List Char) (ip : List Nat) (i : Nat)
    (e : Option Nat) (ip1 : List Nat) (i1 : Nat) (e1 : Option Nat),
    parseIPv6Loop t s ip i e = some ([], ip1, i1, e1) → '/' ∉ s := by
  intro t
  induction t with
  | zero =>
    intro s ip i e ip1 i1 e1 h
    simp only [parseIPv6Loop, Option.some.injEq, Prod.mk.injEq] at h
    simp [h.1]
  | succ t ih =>
    intro s ip i e ip1 i1 e1 h
    rw [parseIPv6Loop] at h
    by_cases hi : i < 16
    · rw [if_neg (not_not.mpr hi)] at h
      cases hx : hexLoop s 0 0 with
      | none => simp [hx] at h
      | some x =>
        obtain ⟨off, acc, rest⟩ := x
        obtain ⟨pre, hpre, hns⟩ := hexLoop_split s 0 0 off acc rest hx
        simp only [hx] at h
        by_cases h0 : off = 0
        · simp [h0] at h
        · rw [if_neg h0] at h
          by_cases hdot : rest.head? = some '.'
          · rw [if_pos hdot] at h
            split_ifs at h
            cases hf : parseIPv4Fields s with
            | none => simp [hf] at h
            | some f => exact parseIPv4FieldsLoop_no_slash s none 0 0 0 _ f hf
          · rw [if_neg hdot] at h
            cases rest with
            | nil => simpa [hpre] using hns
            | cons c rest1 =>
              simp only at h
              by_cases hc : c = ':'
              · subst hc
                rw [if_neg (by simp)] at h
                have hcolon : ':' ≠ '/' := by decide
                cases rest1 with
                | nil => simp at h
                | cons c2 rest2 =>
                  by_cases hc2 : c2 = ':'
                  · subst hc2
                    simp only at h
                    split_ifs at h with h1 h2
                    · subst h2
                      rw [hpre]
                      simp [hns]
                    · have := ih _ _ _ _ _ _ _ h
                      rw [hpre]
                      simp [hns, this]
                  · have h' : parseIPv6Loop t (c2 :: rest2)
                        ((ip.set i (acc / 256)).set (i + 1) (acc % 256)) (i + 2) e =
                        some ([], ip1, i1, e1) := by
                      revert h
                      split
                      · simp
                      · rename_i heq
                        simp only [List.cons.injEq] at heq
                        exact absurd heq.1 hc2
                      · intro h
                        exact h
                    have := ih _ _ _ _ _ _ _ h'
                    rw [hpre]
                    simp only [List.mem_append, List.mem_cons, not_or]
                    simp only [List.mem_cons, not_or] at this
                    exact ⟨hns, fun e => hcolon e.symm, this⟩
              · rw [if_pos hc] at h
                cases h
    · rw [if_pos hi] at h
      simp only [Option.some.injEq, Prod.mk.injEq] at h
      simp [h.1]

theorem splitZone_none : ∀ (s : List Char), (splitZone s).2 = none → (splitZone s).1 = s := by
  intro s
  induction s with
  | nil => intro _; rfl
  | cons c cs ih =>
    intro h
    by_cases hc : c = '%'
    · simp [splitZone, hc] at h
    · simp only [splitZone, hc, if_false] at h ⊢
      rw [ih h]

theorem parseIPv4FieldsLoop_length :
    ∀ (s : List Char) (prev : Option Char) (val pos dl : Nat) (f r : List Nat),
      parseIPv4FieldsLoop s prev val pos dl f = some r → r.length = f.length := by
  intro s
  induction s with
  | nil =>
    intro prev val pos dl f r h
    rw [parseIPv4FieldsLoop] at h
    split_ifs at h
    cases h
    simp
  | cons c cs ih =>
    intro prev val pos dl f r h
    rw [parseIPv4FieldsLoop] at h
    split_ifs at h
    · exact ih _ _ _ _ _ _ h
    · rw [ih _ _ _ _ _ _ h]
      simp

/-- What a successful `parseIPv6` says about the zone and the text read. -/
theorem parseIPv6_some {s : List Char} {ip : List Nat} {z : List Char}
    (h : parseIPv6 s = some (Addr.v6 ip z)) :
    z = (splitZone s).2.getD [] ∧ (splitZone s).2 ≠ some [] ∧
    ((splitZone s).1 = [':', ':'] ∨
      ∃ t ip1 i1 e1 ip0 e0, parseIPv6Loop t
        (if (decide ((splitZone s).1.take 2 = [':', ':']) : Bool) = true
          then (splitZone s).1.drop 2 else (splitZone s).1) ip0 0 e0 = some ([], ip1, i1, e1)) := by
  unfold parseIPv6 at h
  simp only at h
  by_cases hz : (splitZone s).2 = some []
  · rw [if_pos hz] at h
    cases h
  · rw [if_neg hz] at h
    by_cases hl : (decide ((splitZone s).1.take 2 = [':', ':']) : Bool) = true ∧
        (splitZone s).1.drop 2 = []
    · rw [if_pos hl] at h
      simp only [Option.some.injEq, Addr.v6.injEq] at h
      refine ⟨h.2.symm, hz, Or.inl ?_⟩
      have h1 : (splitZone s).1.take 2 = [':', ':'] := by simpa using hl.1
      have h2 := List.take_append_drop 2 (splitZone s).1
      rw [h1, hl.2] at h2
      exact h2.symm
    · rw [if_neg hl] at h
      split at h
      · cases h
      · rename_i rest ip1 i1 e1 heq
        by_cases hr : rest = []
        · subst hr
          have hzone : z = (splitZone s).2.getD [] := by
            simp only [ne_eq, not_true_eq_false, if_false] at h
            split_ifs at h
            · split at h
              · cases h
              · simp only [Option.some.injEq, Addr.v6.injEq] at h
                exact h.2.symm
            · simp only [Option.some.injEq, Addr.v6.injEq] at h
              exact h.2.symm
          exact ⟨hzone, hz, Or.inr ⟨_, _, _, _, _, _, heq⟩⟩
        · rw [if_pos hr] at h
          cases h

theorem parseIPv6_no_slash {s : List Char} {ip : List Nat}
    (h : parseIPv6 s = some (Addr.v6 ip [])) : '/' ∉ s := by
  obtain ⟨hz, hne, hc⟩ := parseIPv6_some h
  have hnone : (splitZone s).2 = none := by
    cases hs : (splitZone s).2 with
    | none => rfl
    | some z =>
      rw [hs] at hz hne
      simp only [Option.getD_some] at hz
      exact absurd (by rw [← hz]) hne
  have h1 := splitZone_none s hnone
  rw [h1] at hc
  rcases hc with hc | ⟨t, ip1, i1, e1, ip0, e0, hc⟩
  · rw [hc]
    decide
  · have hns := parseIPv6Loop_no_slash _ _ _ _ _ _ _ _ hc
    by_cases hl : (decide (s.take 2 = [':', ':']) : Bool) = true
    · rw [if_pos hl] at hns
      have h2 := List.take_append_drop 2 s
      rw [show s.take 2 = [':', ':'] by simpa using hl] at h2
      rw [← h2]
      simp only [List.cons_append, List.nil_append, List.mem_cons, not_or]
      exact ⟨by decide, by decide, hns⟩
    · rw [if_neg hl] at hns
      exact hns

theorem ParseAddrScan_v6 (s : List Char) :
    ∀ (rest : List Char) (ip : List Nat) (z : List Char),
      ParseAddrScan s rest = some (Addr.v6 ip z) → parseIPv6 s = some (Addr.v6 ip z) := by
  intro rest
  induction rest with
  | nil => intro ip z h; simp [ParseAddrScan] at h
  | cons c cs ih =>
    intro ip z h
    rw [ParseAddrScan] at h
    split_ifs at h
    · simp only [parseIPv4, Option.map_eq_some'] at h
      obtain ⟨f, _, hf⟩ := h
      cases hf
    · exact h
    · exact ih ip z h

/-- An address text that `ParseAddr` accepts without a zone holds no `/`. -/
theorem ParseAddr_no_slash {s : List Char} {addr : Addr} (h : ParseAddr s = some addr)
    (hz : addr.Zone = []) : '/' ∉ s := by
  cases addr with
  | v4 f => exact ParseAddr_v4_no_slash h
  | v6 ip z =>
    simp only [Addr.Zone] at hz
    subst hz
    exact parseIPv6_no_slash (ParseAddrScan_v6 s s ip [] h)

theorem dtoi_toString_128 {n : Nat} (hn : n ≤ 128) :
    dtoi (toString n).toList = (n, (toString n).toList.length, true) := by
  interval_cases n <;> decide

/-- For an address text that `net.ParseIP` accepts as an address without 4-byte
form, the decimal form of every length in 0..128 makes the combined text a
CIDR block. -/
theorem ParseCIDR_v6_decimal {a : List Char} {ip : List Nat} {n : Nat}
    (hip : ParseIP a = some ip) (h4 : To4 ip = []) (hn : n ≤ 128) :
    (ParseCIDR (a ++ '/' :: (toString n).toList)).isSome = true := by
  unfold ParseIP at hip
  split at hip
  · cases hip
  · rename_i addr hpa
    split_ifs at hip with hz
    simp only [ne_eq, not_not] at hz
    simp only [Option.some.injEq] at hip
    have hs := ParseAddr_no_slash hpa hz
    have hbit : addr.BitLen = 128 := by
      cases addr with
      | v4 f =>
        exfalso
        rw [← hip] at h4
        have hf := ParseAddrScan_v4 a a f hpa
        have hlen := parseIPv4FieldsLoop_length a none 0 0 0 [0, 0, 0, 0] f hf
        have : ∃ f0 f1 f2 f3, f = [f0, f1, f2, f3] := by
          match f, hlen with
          | [f0, f1, f2, f3], _ => exact ⟨f0, f1, f2, f3, rfl⟩
        obtain ⟨f0, f1, f2, f3, rfl⟩ := this
        simp only [Addr.As16, To4_lead] at h4
        cases h4
      | v6 ip1 z => rfl
    unfold ParseCIDR
    rw [if_neg (by simp)]
    simp only [takeWhile_slash a _ hs, dropWhile_slash a _ hs, List.drop_succ_cons,
      List.drop_zero, hpa, hz, dtoi_toString_128 hn, hbit]
    simp [hn]

/-! ## The claims -/

/-- C1 (the code breaks it): the address text `::ffff:1.2.3.4`, an IPv4-mapped
IPv6 literal of 14 characters, makes `calculateCIDR` panic instead of returning
a record.  With the mask text `24` the network number `ipnet.IP.To4()` is nil
and `networkIP[0]` is out of range; with the mask text `99` the shift amount
`32 - ones` is negative. -/
theorem calculateCIDR_mapped_address_panics :
    "::ffff:1.2.3.4".length ≤ 15 ∧ "24".length ≤ 2 ∧ "99".length ≤ 2 ∧
    calculateCIDR "::ffff:1.2.3.4" "24" = Except.error Panic.indexOutOfRange ∧
    calculateCIDR "::ffff:1.2.3.4" "99" = Except.error Panic.negativeShift :=
  ⟨by decide, by decide, by decide, rfl, rfl⟩

/-- C2: for a valid IPv4 address text and the decimal form of `n ≤ 32`,
`TotalAddresses` is the decimal rendering of exactly `2 ^ (32 - n)`, a value
below `2 ^ 64`; for `n = 0` it is `4294967296`. -/
theorem totalAddresses_exact (a : String) (a0 a1 a2 a3 n : Nat)
    (ha : ParseAddr a.toList = some (Addr.v4 [a0, a1, a2, a3])) (hn : n ≤ 32) :
    ∃ r, calculateCIDR a (toString n) = Except.ok r ∧
      r.TotalAddresses = toString (2 ^ (32 - n)) ∧ 2 ^ (32 - n) < 2 ^ 64 ∧
      (n = 0 → r.TotalAddresses = "4294967296") := by
  refine ⟨_, calculateCIDR_v4 a _ a0 a1 a2 a3 n ha (dtoi_toString hn) hn, rfl, ?_, ?_⟩
  · exact Nat.pow_lt_pow_right (by norm_num) (by omega)
  · rintro rfl
    rfl

/-- Instance of C2 at the address text `10.0.0.5` and the length 0. -/
theorem totalAddresses_exact_witness :
    ParseAddr "10.0.0.5".toList = some (Addr.v4 [10, 0, 0, 5]) ∧ 0 ≤ 32 ∧
    ∃ r, calculateCIDR "10.0.0.5" (toString 0) = Except.ok r ∧
      r.TotalAddresses = toString (2 ^ (32 - 0)) ∧ 2 ^ (32 - 0) < 2 ^ 64 ∧
      (0 = 0 → r.TotalAddresses = "4294967296") :=
  ⟨by decide, by decide, totalAddresses_exact "10.0.0.5" 10 0 0 5 0 (by decide) (by decide)⟩

/-- C3: for a valid IPv4 address text and a prefix length `n ≤ 32`,
`MaxAddresses` is the decimal rendering of 1 when `n = 32`, of 2 when `n = 31`,
and of `2 ^ (32 - n) - 2` when `n ≤ 30`, where the subtraction does not go
below zero. -/
theorem maxAddresses_by_length (a : String) (a0 a1 a2 a3 n : Nat)
    (ha : ParseAddr a.toList = some (Addr.v4 [a0, a1, a2, a3])) (hn : n ≤ 32) :
    ∃ r, calculateCIDR a (toString n) = Except.ok r ∧
      (n = 32 → r.MaxAddresses = "1") ∧ (n = 31 → r.MaxAddresses = "2") ∧
      (n ≤ 30 → r.MaxAddresses = toString (2 ^ (32 - n) - 2) ∧ 2 ≤ 2 ^ (32 - n)) := by
  refine ⟨_, calculateCIDR_v4 a _ a0 a1 a2 a3 n ha (dtoi_toString hn) hn, ?_, ?_, ?_⟩
  · rintro rfl
    rfl
  · rintro rfl
    rfl
  · intro h30
    refine ⟨?_, ?_⟩
    · simp only [if_neg (show ¬ n = 32 by omega), if_neg (show ¬ n = 31 by omega)]
    · calc 2 = 2 ^ 1 := rfl
        _ ≤ 2 ^ (32 - n) := Nat.pow_le_pow_right (by norm_num) (by omega)

/-- Instance of C3 at the address text `10.0.0.1` and the length 31. -/
theorem maxAddresses_by_length_witness :
    ParseAddr "10.0.0.1".toList = some (Addr.v4 [10, 0, 0, 1]) ∧ 31 ≤ 32 ∧
    ∃ r, calculateCIDR "10.0.0.1" (toString 31) = Except.ok r ∧
      (31 = 32 → r.MaxAddresses = "1") ∧ (31 = 31 → r.MaxAddresses = "2") ∧
      (31 ≤ 30 → r.MaxAddresses = toString (2 ^ (32 - 31) - 2) ∧ 2 ≤ 2 ^ (32 - 31)) :=
  ⟨by decide, by decide, maxAddresses_by_length "10.0.0.1" 10 0 0 1 31 (by decide) (by decide)⟩

/-- C4: for a valid IPv4 address text and a prefix length `n ≤ 32`, `Netmask`
is the dotted-quad rendering of the four octets of the 32-bit value
`netmaskValue n`, whose bit `i` is one exactly for the `n` high-order positions
`32 - n ≤ i < 32`; the address does not occur in it. -/
theorem netmask_high_bits (a : String) (a0 a1 a2 a3 n : Nat)
    (ha : ParseAddr a.toList = some (Addr.v4 [a0, a1, a2, a3])) (hn : n ≤ 32) :
    ∃ r, calculateCIDR a (toString n) = Except.ok r ∧
      r.Netmask = dottedQuad (octet (netmaskValue n) 0) (octet (netmaskValue n) 1)
        (octet (netmaskValue n) 2) (octet (netmaskValue n) 3) ∧
      netmaskValue n < 2 ^ 32 ∧
      ∀ i, i < 32 → (netmaskValue n).testBit i = decide (32 - n ≤ i) := by
  refine ⟨_, calculateCIDR_v4 a _ a0 a1 a2 a3 n ha (dtoi_toString hn) hn, rfl, ?_, ?_⟩
  · unfold netmaskValue
    have : 0 < 2 ^ (32 - n) := Nat.pos_pow_of_pos _ (by norm_num)
    omega
  · exact netmaskValue_testBit n (by omega)

/-- Instance of C4 at the address text `192.168.1.10` and the length 24. -/
theorem netmask_high_bits_witness :
    ParseAddr "192.168.1.10".toList = some (Addr.v4 [192, 168, 1, 10]) ∧ 24 ≤ 32 ∧
    ∃ r, calculateCIDR "192.168.1.10" (toString 24) = Except.ok r ∧
      r.Netmask = dottedQuad (octet (netmaskValue 24) 0) (octet (netmaskValue 24) 1)
        (octet (netmaskValue 24) 2) (octet (netmaskValue 24) 3) ∧
      netmaskValue 24 < 2 ^ 32 ∧
      ∀ i, i < 32 → (netmaskValue 24).testBit i = decide (32 - 24 ≤ i) :=
  ⟨by decide, by decide,
    netmask_high_bits "192.168.1.10" 192 168 1 10 24 (by decide) (by decide)⟩

/-- C5: for a valid IPv4 address text and a prefix length `n ≤ 32`, `Wildcard`
is the dotted-quad rendering of the complement (exclusive or with `0xff`) of
each of the four octets rendered in `Netmask`, and every wildcard octet plus
its netmask octet is 255. -/
theorem wildcard_complement (a : String) (a0 a1 a2 a3 n : Nat)
    (ha : ParseAddr a.toList = some (Addr.v4 [a0, a1, a2, a3])) (hn : n ≤ 32) :
    ∃ r, calculateCIDR a (toString n) = Except.ok r ∧
      r.Netmask = dottedQuad (octet (netmaskValue n) 0) (octet (netmaskValue n) 1)
        (octet (netmaskValue n) 2) (octet (netmaskValue n) 3) ∧
      r.Wildcard = dottedQuad (octet (netmaskValue n) 0 ^^^ 0xff)
        (octet (netmaskValue n) 1 ^^^ 0xff) (octet (netmaskValue n) 2 ^^^ 0xff)
        (octet (netmaskValue n) 3 ^^^ 0xff) ∧
      ∀ k, (octet (netmaskValue n) k ^^^ 0xff) + octet (netmaskValue n) k = 255 := by
  refine ⟨_, calculateCIDR_v4 a _ a0 a1 a2 a3 n ha (dtoi_toString hn) hn, rfl, ?_, ?_⟩
  · simp only [octet_xor hn]
  · intro k
    have hlt : octet (netmaskValue n) k < 256 := Nat.mod_lt _ (by norm_num)
    rw [octet_xor hn]
    omega

/-- Instance of C5 at the address text `192.168.1.10` and the length 20. -/
theorem wildcard_complement_witness :
    ParseAddr "192.168.1.10".toList = some (Addr.v4 [192, 168, 1, 10]) ∧ 20 ≤ 32 ∧
    ∃ r, calculateCIDR "192.168.1.10" (toString 20) = Except.ok r ∧
      r.Netmask = dottedQuad (octet (netmaskValue 20) 0) (octet (netmaskValue 20) 1)
        (octet (netmaskValue 20) 2) (octet (netmaskValue 20) 3) ∧
      r.Wildcard = dottedQuad (octet (netmaskValue 20) 0 ^^^ 0xff)
        (octet (netmaskValue 20) 1 ^^^ 0xff) (octet (netmaskValue 20) 2 ^^^ 0xff)
        (octet (netmaskValue 20) 3 ^^^ 0xff) ∧
      ∀ k, (octet (netmaskValue 20) k ^^^ 0xff) + octet (netmaskValue 20) k = 255 :=
  ⟨by decide, by decide,
    wildcard_complement "192.168.1.10" 192 168 1 10 20 (by decide) (by decide)⟩

/-- C6: for a valid IPv4 address text with octets `a0.a1.a2.a3` and a prefix
length `n ≤ 32`, `Network` is the dotted-quad rendering of the octets
`a0 & m0`, ..., `a3 & m3`, the `m` being the netmask octets, and the 32-bit
value of these four octets has its low `32 - n` bits zero. -/
theorem network_is_and (a : String) (a0 a1 a2 a3 n : Nat)
    (ha : ParseAddr a.toList = some (Addr.v4 [a0, a1, a2, a3])) (hn : n ≤ 32) :
    ∃ r, calculateCIDR a (toString n) = Except.ok r ∧
      r.Netmask = dottedQuad (octet (netmaskValue n) 0) (octet (netmaskValue n) 1)
        (octet (netmaskValue n) 2) (octet (netmaskValue n) 3) ∧
      r.Network = dottedQuad (a0 &&& octet (netmaskValue n) 0) (a1 &&& octet (netmaskValue n) 1)
        (a2 &&& octet (netmaskValue n) 2) (a3 &&& octet (netmaskValue n) 3) ∧
      value32 (a0 &&& octet (netmaskValue n) 0) (a1 &&& octet (netmaskValue n) 1)
        (a2 &&& octet (netmaskValue n) 2) (a3 &&& octet (netmaskValue n) 3) % 2 ^ (32 - n) = 0 :=
  ⟨_, calculateCIDR_v4 a _ a0 a1 a2 a3 n ha (dtoi_toString hn) hn, rfl, rfl,
    network_host_bits_zero a0 a1 a2 a3 hn⟩

/-- Instance of C6 at the address text `192.168.1.10` and the length 29. -/
theorem network_is_and_witness :
    ParseAddr "192.168.1.10".toList = some (Addr.v4 [192, 168, 1, 10]) ∧ 29 ≤ 32 ∧
    ∃ r, calculateCIDR "192.168.1.10" (toString 29) = Except.ok r ∧
      r.Netmask = dottedQuad (octet (netmaskValue 29) 0) (octet (netmaskValue 29) 1)
        (octet (netmaskValue 29) 2) (octet (netmaskValue 29) 3) ∧
      r.Network = dottedQuad (192 &&& octet (netmaskValue 29) 0)
        (168 &&& octet (netmaskValue 29) 1) (1 &&& octet (netmaskValue 29) 2)
        (10 &&& octet (netmaskValue 29) 3) ∧
      value32 (192 &&& octet (netmaskValue 29) 0) (168 &&& octet (netmaskValue 29) 1)
        (1 &&& octet (netmaskValue 29) 2) (10 &&& octet (netmaskValue 29) 3) % 2 ^ (32 - 29)
        = 0 :=
  ⟨by decide, by decide, network_is_and "192.168.1.10" 192 168 1 10 29 (by decide) (by decide)⟩

/-- C7: for a valid IPv4 address text and a prefix length `n ≤ 32`, `AddrRange`
is `Network`, then `" - "`, then the dotted-quad rendering of the octets
`N0 | w0`, ..., `N3 | w3`, where `Network` renders the octets `N` and `Wildcard`
renders the octets `w`. -/
theorem addrRange_is_network_to_broadcast (a : String) (a0 a1 a2 a3 n : Nat)
    (ha : ParseAddr a.toList = some (Addr.v4 [a0, a1, a2, a3])) (hn : n ≤ 32) :
    ∃ r N0 N1 N2 N3 w0 w1 w2 w3, calculateCIDR a (toString n) = Except.ok r ∧
      r.Network = dottedQuad N0 N1 N2 N3 ∧ r.Wildcard = dottedQuad w0 w1 w2 w3 ∧
      N0 = a0 &&& octet (netmaskValue n) 0 ∧ N1 = a1 &&& octet (netmaskValue n) 1 ∧
      N2 = a2 &&& octet (netmaskValue n) 2 ∧ N3 = a3 &&& octet (netmaskValue n) 3 ∧
      w0 = octet (netmaskValue n) 0 ^^^ 0xff ∧ w1 = octet (netmaskValue n) 1 ^^^ 0xff ∧
      w2 = octet (netmaskValue n) 2 ^^^ 0xff ∧ w3 = octet (netmaskValue n) 3 ^^^ 0xff ∧
      r.AddrRange =
        r.Network ++ " - " ++ dottedQuad (N0 ||| w0) (N1 ||| w1) (N2 ||| w2) (N3 ||| w3) := by
  refine ⟨_, _, _, _, _, _, _, _, _, calculateCIDR_v4 a _ a0 a1 a2 a3 n ha (dtoi_toString hn) hn,
    rfl, ?_, rfl, rfl, rfl, rfl, rfl, rfl, rfl, rfl, ?_⟩
  · simp only [octet_xor hn]
  · simp only [octet_xor hn]

/-- Instance of C7 at the address text `192.168.1.10` and the length 24. -/
theorem addrRange_is_network_to_broadcast_witness :
    ParseAddr "192.168.1.10".toList = some (Addr.v4 [192, 168, 1, 10]) ∧ 24 ≤ 32 ∧
    ∃ r N0 N1 N2 N3 w0 w1 w2 w3, calculateCIDR "192.168.1.10" (toString 24) = Except.ok r ∧
      r.Network = dottedQuad N0 N1 N2 N3 ∧ r.Wildcard = dottedQuad w0 w1 w2 w3 ∧
      N0 = 192 &&& octet (netmaskValue 24) 0 ∧ N1 = 168 &&& octet (netmaskValue 24) 1 ∧
      N2 = 1 &&& octet (netmaskValue 24) 2 ∧ N3 = 10 &&& octet (netmaskValue 24) 3 ∧
      w0 = octet (netmaskValue 24) 0 ^^^ 0xff ∧ w1 = octet (netmaskValue 24) 1 ^^^ 0xff ∧
      w2 = octet (netmaskValue 24) 2 ^^^ 0xff ∧ w3 = octet (netmaskValue 24) 3 ^^^ 0xff ∧
      r.AddrRange =
        r.Network ++ " - " ++ dottedQuad (N0 ||| w0) (N1 ||| w1) (N2 ||| w2) (N3 ||| w3) :=
  ⟨by decide, by decide,
    addrRange_is_network_to_broadcast "192.168.1.10" 192 168 1 10 24 (by decide) (by decide)⟩

/-- C8: for a valid IPv4 address text and a mask text made of decimal digits
whose value is `n ≤ 32` (leading zeros allowed), `CIDRNotation` is the
`Network` field, then `/`, then the decimal rendering of `n` without leading
zeros; `Network` renders the masked octets, not the octets as typed. -/
theorem cidrNotation_is_network_slash_length (a m : String) (a0 a1 a2 a3 n : Nat)
    (ha : ParseAddr a.toList = some (Addr.v4 [a0, a1, a2, a3]))
    (hne : m.toList ≠ []) (hd : ∀ c ∈ m.toList, isDigit c = true)
    (hv : decimalValue m.toList 0 = n) (hn : n ≤ 32) :
    ∃ r, calculateCIDR a m = Except.ok r ∧
      r.Network = dottedQuad (a0 &&& octet (netmaskValue n) 0) (a1 &&& octet (netmaskValue n) 1)
        (a2 &&& octet (netmaskValue n) 2) (a3 &&& octet (netmaskValue n) 3) ∧
      r.CIDRNotation = r.Network ++ "/" ++ toString n :=
  ⟨_, calculateCIDR_v4 a m a0 a1 a2 a3 n ha (dtoi_digits hne hd hv hn) hn, rfl, rfl⟩

/-- Instance of C8 at the address text `10.0.0.5` and the mask text `024`. -/
theorem cidrNotation_is_network_slash_length_witness :
    ParseAddr "10.0.0.5".toList = some (Addr.v4 [10, 0, 0, 5]) ∧ "024".toList ≠ [] ∧
    (∀ c ∈ "024".toList, isDigit c = true) ∧ decimalValue "024".toList 0 = 24 ∧ 24 ≤ 32 ∧
    ∃ r, calculateCIDR "10.0.0.5" "024" = Except.ok r ∧
      r.Network = dottedQuad (10 &&& octet (netmaskValue 24) 0) (0 &&& octet (netmaskValue 24) 1)
        (0 &&& octet (netmaskValue 24) 2) (5 &&& octet (netmaskValue 24) 3) ∧
      r.CIDRNotation = r.Network ++ "/" ++ toString 24 :=
  ⟨by decide, by decide, by decide, by decide, by decide,
    cidrNotation_is_network_slash_length "10.0.0.5" "024" 10 0 0 5 24 (by decide) (by decide)
      (by decide) (by decide) (by decide)⟩

/-- C9: for non-empty address and mask texts, `calculateCIDR` returns a record
whose `Error` is `Invalid IP Address` if and only if `net.ParseIP` rejects the
address text, whatever the mask text is; the record returned then has every
other field empty. -/
theorem invalid_address_iff (a m : String) (ha : a ≠ "") (hm : m ≠ "") :
    ((∃ r, calculateCIDR a m = Except.ok r ∧ r.Error = "Invalid IP Address") ↔
      ParseIP a.toList = none) ∧
    (ParseIP a.toList = none →
      calculateCIDR a m = Except.ok
        { Netmask := "", Wildcard := "", TotalAddresses := "", MaxAddresses := "", Network := "",
          CIDRNotation := "", AddrRange := "", Error := "Invalid IP Address" }) := by
  refine ⟨⟨?_, fun hip => ⟨_, calculateCIDR_no_ip_literal ha hm hip, rfl⟩⟩,
    fun hip => calculateCIDR_no_ip_literal ha hm hip⟩
  rintro ⟨r, hr, he⟩
  rcases calculateCIDR_ok_cases hr with h | h | h | h | h
  · rw [h.1] at he
    exact absurd he (by decide)
  · exact h.2
  · rw [h.1] at he
    exact absurd he (by decide)
  · rw [h.1] at he
    exact absurd he (by decide)
  · rw [h.1] at he
    exact absurd he (by decide)

/-- Instance of C9 at the address text `300.1.1.1` and the mask text `24`. -/
theorem invalid_address_iff_witness :
    "300.1.1.1" ≠ "" ∧ "24" ≠ "" ∧
    ((∃ r, calculateCIDR "300.1.1.1" "24" = Except.ok r ∧ r.Error = "Invalid IP Address") ↔
      ParseIP "300.1.1.1".toList = none) ∧
    (ParseIP "300.1.1.1".toList = none →
      calculateCIDR "300.1.1.1" "24" = Except.ok
        { Netmask := "", Wildcard := "", TotalAddresses := "", MaxAddresses := "", Network := "",
          CIDRNotation := "", AddrRange := "", Error := "Invalid IP Address" }) :=
  ⟨by decide, by decide, invalid_address_iff "300.1.1.1" "24" (by decide) (by decide)⟩

/-- C10 as stated fails: the address text `::1` is no IPv4 address and `::1/x`
is no CIDR block, yet the record returned has `Error = "Invalid Mask"`. -/
theorem invalid_mask_for_ipv6_text :
    ¬ ∀ a m : String, a ≠ "" → m ≠ "" → ParseCIDR (a ++ "/" ++ m).toList = none →
      (∀ f, ParseAddr a.toList ≠ some (Addr.v4 f)) →
      ∃ r, calculateCIDR a m = Except.ok r ∧ r.Error = "Invalid IP Address" := by
  intro h
  have hv6 : ParseAddr "::1".toList =
      some (Addr.v6 [0, 0, 0, 0, 0, 0, 0, 0, 0, 0, 0, 0, 0, 0, 0, 1] []) := by decide
  obtain ⟨r, hr, he⟩ := h "::1" "x" (by decide) (by decide) (by decide)
    (fun f hf => by rw [hv6] at hf; cases hf)
  have hc : calculateCIDR "::1" "x" = Except.ok { Error := "Invalid Mask" } := rfl
  rw [hc] at hr
  cases hr
  exact absurd he (by decide)

/-- C10 (amended): for non-empty address and mask texts whose combined text
`address/mask` is no CIDR block, if `net.ParseIP` rejects the address text, so
that it is no IP literal of either family, the record returned has
`Error = "Invalid IP Address"`. -/
theorem invalid_address_when_no_ip_literal (a m : String) (ha : a ≠ "") (hm : m ≠ "")
    (_hc : ParseCIDR (a ++ "/" ++ m).toList = none) (hip : ParseIP a.toList = none) :
    ∃ r, calculateCIDR a m = Except.ok r ∧ r.Error = "Invalid IP Address" :=
  ⟨_, calculateCIDR_no_ip_literal ha hm hip, rfl⟩

/-- Instance of the amended C10 at the address text `1.2.3` and the mask text `8`. -/
theorem invalid_address_when_no_ip_literal_witness :
    "1.2.3" ≠ "" ∧ "8" ≠ "" ∧ ParseCIDR ("1.2.3" ++ "/" ++ "8").toList = none ∧
    ParseIP "1.2.3".toList = none ∧
    ∃ r, calculateCIDR "1.2.3" "8" = Except.ok r ∧ r.Error = "Invalid IP Address" :=
  ⟨by decide, by decide, by decide, by decide,
    invalid_address_when_no_ip_literal "1.2.3" "8" (by decide) (by decide) (by decide)
      (by decide)⟩

/-! ## The claims, continued -/

/-- C11: for a valid IPv4 address text and a non-empty mask text, the record
returned has `Error = "Invalid Mask"` if and only if the mask text is not a
string of decimal digits denoting an integer in 0..32; it is then the record
with only `Error` set, and otherwise the record returned has `Error` empty and
all seven data fields populated. -/
theorem invalid_mask_iff (a m : String) (a0 a1 a2 a3 : Nat)
    (ha : ParseAddr a.toList = some (Addr.v4 [a0, a1, a2, a3])) (hm : m ≠ "") :
    ((∃ r, calculateCIDR a m = Except.ok r ∧ r.Error = "Invalid Mask") ↔
      ¬ denotesLength m.toList) ∧
    (¬ denotesLength m.toList →
      calculateCIDR a m = Except.ok
        { Netmask := "", Wildcard := "", TotalAddresses := "", MaxAddresses := "", Network := "",
          CIDRNotation := "", AddrRange := "", Error := "Invalid Mask" }) ∧
    (denotesLength m.toList →
      ∃ r, calculateCIDR a m = Except.ok r ∧ r.Error = "" ∧ populated r) := by
  have hane : a ≠ "" := by
    rintro rfl
    exact ParseAddr_ne_nil ha rfl
  have hyes : denotesLength m.toList →
      ∃ r, calculateCIDR a m = Except.ok r ∧ r.Error = "" ∧ populated r := by
    intro hd
    have hr := calculateCIDR_v4 a m a0 a1 a2 a3 _ ha (dtoi_digits hd.1 hd.2.1 rfl hd.2.2) hd.2.2
    exact ⟨_, hr, rfl, calculateCIDR_ok_populated hr hane hm rfl⟩
  refine ⟨⟨?_, fun hd => ⟨_, calculateCIDR_invalid_mask ha hm hd, rfl⟩⟩,
    fun hd => calculateCIDR_invalid_mask ha hm hd, hyes⟩
  rintro ⟨r, hr, he⟩ hd
  obtain ⟨r2, hr2, he2, _⟩ := hyes hd
  rw [hr] at hr2
  cases hr2
  rw [he] at he2
  exact absurd he2 (by decide)

/-- Instance of C11 at the address text `192.168.1.10` and the mask text `abc`. -/
theorem invalid_mask_iff_witness :
    ParseAddr "192.168.1.10".toList = some (Addr.v4 [192, 168, 1, 10]) ∧ "abc" ≠ "" ∧
    ((∃ r, calculateCIDR "192.168.1.10" "abc" = Except.ok r ∧ r.Error = "Invalid Mask") ↔
      ¬ denotesLength "abc".toList) ∧
    (¬ denotesLength "abc".toList →
      calculateCIDR "192.168.1.10" "abc" = Except.ok
        { Netmask := "", Wildcard := "", TotalAddresses := "", MaxAddresses := "", Network := "",
          CIDRNotation := "", AddrRange := "", Error := "Invalid Mask" }) ∧
    (denotesLength "abc".toList →
      ∃ r, calculateCIDR "192.168.1.10" "abc" = Except.ok r ∧ r.Error = "" ∧ populated r) :=
  ⟨by decide, by decide, invalid_mask_iff "192.168.1.10" "abc" 192 168 1 10 (by decide)
    (by decide)⟩

/-- C12: for an address text that `net.ParseIP` reads as an address with no
4-byte form (`To4` is nil, as for the IPv6 literal `::1`) and a mask text that
makes the combined text `address/mask` parse as a CIDR block, the record
returned has `Error = "Only IPv4 addresses are supported."` and every other
field empty. -/
theorem unsupported_family (a m : String) (ip : List Nat)
    (hip : ParseIP a.toList = some ip) (h4 : To4 ip = [])
    (hc : (ParseCIDR (a ++ "/" ++ m).toList).isSome = true) :
    calculateCIDR a m = Except.ok
      { Netmask := "", Wildcard := "", TotalAddresses := "", MaxAddresses := "", Network := "",
        CIDRNotation := "", AddrRange := "", Error := "Only IPv4 addresses are supported." } := by
  obtain ⟨x, hx⟩ := Option.isSome_iff_exists.mp hc
  have hx1 := hx
  rw [toList_append_slash] at hx1
  obtain ⟨addr, h1, h2, h3, h5, _⟩ := ParseCIDR_some hx1
  have hane : a ≠ "" := by
    rintro rfl
    exact ParseAddr_ne_nil h1 rfl
  have hmne : m ≠ "" := by
    rintro rfl
    simp [dtoi, dtoiLoop] at h5
  have hipx : x.1 = ip := by
    simp only [ParseIP, h1, h2, ne_eq, not_true_eq_false, if_false, Option.some.injEq] at hip
    rw [h3, hip]
  obtain ⟨ip1, ipnet⟩ := x
  simp only at hipx
  subst hipx
  unfold calculateCIDR
  rw [if_neg (by simp [hane, hmne])]
  simp only [hx, h4, if_true]
  rfl

/-- Instance of C12 at the address text `::1` and the mask text `64`. -/
theorem unsupported_family_witness :
    ParseIP "::1".toList = some [0, 0, 0, 0, 0, 0, 0, 0, 0, 0, 0, 0, 0, 0, 0, 1] ∧
    To4 [0, 0, 0, 0, 0, 0, 0, 0, 0, 0, 0, 0, 0, 0, 0, 1] = [] ∧
    (ParseCIDR ("::1" ++ "/" ++ "64").toList).isSome = true ∧
    calculateCIDR "::1" "64" = Except.ok
      { Netmask := "", Wildcard := "", TotalAddresses := "", MaxAddresses := "", Network := "",
        CIDRNotation := "", AddrRange := "", Error := "Only IPv4 addresses are supported." } :=
  ⟨by decide, by decide, by decide,
    unsupported_family "::1" "64" [0, 0, 0, 0, 0, 0, 0, 0, 0, 0, 0, 0, 0, 0, 0, 1] (by decide)
      (by decide) (by decide)⟩

/-- C13: when the address text or the mask text is empty, the record returned
is the default record, all eight fields empty, whatever the other text is. -/
theorem empty_input_default (a m : String) (h : a = "" ∨ m = "") :
    calculateCIDR a m = Except.ok
      { Netmask := "", Wildcard := "", TotalAddresses := "", MaxAddresses := "", Network := "",
        CIDRNotation := "", AddrRange := "", Error := "" } := by
  unfold calculateCIDR
  rw [if_pos h]
  rfl

/-- Instance of C13 at an empty address text and the mask text `abc`, which is
no mask. -/
theorem empty_input_default_witness :
    ("" = "" ∨ "abc" = "") ∧
    calculateCIDR "" "abc" = Except.ok
      { Netmask := "", Wildcard := "", TotalAddresses := "", MaxAddresses := "", Network := "",
        CIDRNotation := "", AddrRange := "", Error := "" } :=
  ⟨Or.inl rfl, empty_input_default "" "abc" (Or.inl rfl)⟩

/-- C14 as stated fails: for an empty address text the record returned has
neither an error nor populated data fields. -/
theorem default_record_has_neither :
    ¬ ∀ (a m : String) (r : cidrInfo), calculateCIDR a m = Except.ok r →
      (r.Error ≠ "" ∧ ¬ populated r) ∨ (r.Error = "" ∧ populated r) := by
  intro h
  have hr : calculateCIDR "" "24" = Except.ok {} := rfl
  rcases h "" "24" _ hr with h1 | h1
  · exact h1.1 rfl
  · exact h1.2.1 rfl

/-- C14 (amended): for non-empty address and mask texts, every record that
`calculateCIDR` returns has exactly one of: `Error` set, or all seven data
fields populated. -/
theorem error_xor_populated (a m : String) (r : cidrInfo) (ha : a ≠ "") (hm : m ≠ "")
    (hr : calculateCIDR a m = Except.ok r) :
    (r.Error ≠ "" ∧ ¬ populated r) ∨ (r.Error = "" ∧ populated r) := by
  rcases calculateCIDR_ok_cases hr with h | h | h | h | h
  · rcases h.2 with e | e
    · exact absurd e ha
    · exact absurd e hm
  · left
    rw [h.1]
    exact ⟨by decide, fun hp => hp.1 rfl⟩
  · left
    rw [h.1]
    exact ⟨by decide, fun hp => hp.1 rfl⟩
  · left
    rw [h.1]
    exact ⟨by decide, fun hp => hp.1 rfl⟩
  · right
    exact ⟨h.1, calculateCIDR_ok_populated hr ha hm h.1⟩

/-- Instance of the amended C14 at the texts `10.0.0.1` and `31`. -/
theorem error_xor_populated_witness :
    "10.0.0.1" ≠ "" ∧ "31" ≠ "" ∧
    calculateCIDR "10.0.0.1" "31" = Except.ok
      { Netmask := "255.255.255.254", Wildcard := "0.0.0.1", TotalAddresses := "2",
        MaxAddresses := "2", Network := "10.0.0.0", CIDRNotation := "10.0.0.0/31",
        AddrRange := "10.0.0.0 - 10.0.0.1", Error := "" } ∧
    (("" : String) ≠ "" ∧ ¬ populated
      { Netmask := "255.255.255.254", Wildcard := "0.0.0.1", TotalAddresses := "2",
        MaxAddresses := "2", Network := "10.0.0.0", CIDRNotation := "10.0.0.0/31",
        AddrRange := "10.0.0.0 - 10.0.0.1", Error := "" } ∨
     ("" : String) = "" ∧ populated
      { Netmask := "255.255.255.254", Wildcard := "0.0.0.1", TotalAddresses := "2",
        MaxAddresses := "2", Network := "10.0.0.0", CIDRNotation := "10.0.0.0/31",
        AddrRange := "10.0.0.0 - 10.0.0.1", Error := "" }) :=
  ⟨by decide, by decide, rfl,
    error_xor_populated "10.0.0.1" "31" _ (by decide) (by decide) rfl⟩

/-- C16: on the texts `192.168.1.10` and `24` the record returned is netmask
`255.255.255.0`, wildcard `0.0.0.255`, total `256`, usable `254`, network
`192.168.1.0`, CIDR notation `192.168.1.0/24`, range
`192.168.1.0 - 192.168.1.255`, and no error. -/
theorem scenario_192_168_1_10_slash_24 :
    calculateCIDR "192.168.1.10" "24" = Except.ok
      { Netmask := "255.255.255.0", Wildcard := "0.0.0.255", TotalAddresses := "256",
        MaxAddresses := "254", Network := "192.168.1.0", CIDRNotation := "192.168.1.0/24",
        AddrRange := "192.168.1.0 - 192.168.1.255", Error := "" } :=
  rfl

/-- The record of the IPv4 path, in terms of the network and broadcast octets. -/
theorem calculateCIDR_v4_octets (a m : String) (a0 a1 a2 a3 n : Nat)
    (ha : ParseAddr a.toList = some (Addr.v4 [a0, a1, a2, a3]))
    (hm : dtoi m.toList = (n, m.toList.length, true)) (hn : n ≤ 32) :
    ∃ r, calculateCIDR a m = Except.ok r ∧
      r.Network = dottedQuad (networkOctet n 0 a0) (networkOctet n 1 a1) (networkOctet n 2 a2)
        (networkOctet n 3 a3) ∧
      r.CIDRNotation = r.Network ++ "/" ++ toString n ∧
      r.AddrRange = r.Network ++ " - " ++
        dottedQuad (broadcastOctet n 0 a0) (broadcastOctet n 1 a1) (broadcastOctet n 2 a2)
          (broadcastOctet n 3 a3) ∧
      r.TotalAddresses = toString (2 ^ (32 - n)) := by
  refine ⟨_, calculateCIDR_v4 a m a0 a1 a2 a3 n ha hm hn, rfl, rfl, ?_, rfl⟩
  simp only [broadcastOctet, networkOctet, octet_xor hn]

/-- Dotted-quad rendering separates quadruples of octets. -/
theorem dottedQuad_inj {x0 x1 x2 x3 y0 y1 y2 y3 : Nat}
    (hx0 : x0 < 256) (hx1 : x1 < 256) (hx2 : x2 < 256) (hx3 : x3 < 256)
    (hy0 : y0 < 256) (hy1 : y1 < 256) (hy2 : y2 < 256) (hy3 : y3 < 256)
    (h : dottedQuad x0 x1 x2 x3 = dottedQuad y0 y1 y2 y3) :
    x0 = y0 ∧ x1 = y1 ∧ x2 = y2 ∧ x3 = y3 := by
  have px := ParseAddr_dottedQuad x0 x1 x2 x3 hx0 hx1 hx2 hx3
  have py := ParseAddr_dottedQuad y0 y1 y2 y3 hy0 hy1 hy2 hy3
  rw [h, py] at px
  simpa using px.symm

/-- C15: for a valid IPv4 address text with octets `a0.a1.a2.a3` and a prefix
length `n ≤ 32`, the two endpoints of `AddrRange`, the renderings of the network
and of the broadcast address, are equal if and only if `n = 32`; when `n = 32`
both and the `Network` field are the dotted quad of `a0.a1.a2.a3`. -/
theorem endpoints_equal_iff_full_length (a : String) (a0 a1 a2 a3 n : Nat)
    (ha : ParseAddr a.toList = some (Addr.v4 [a0, a1, a2, a3])) (hn : n ≤ 32) :
    ∃ r, calculateCIDR a (toString n) = Except.ok r ∧
      r.Network = dottedQuad (networkOctet n 0 a0) (networkOctet n 1 a1) (networkOctet n 2 a2)
        (networkOctet n 3 a3) ∧
      r.AddrRange = r.Network ++ " - " ++
        dottedQuad (broadcastOctet n 0 a0) (broadcastOctet n 1 a1) (broadcastOctet n 2 a2)
          (broadcastOctet n 3 a3) ∧
      (dottedQuad (networkOctet n 0 a0) (networkOctet n 1 a1) (networkOctet n 2 a2)
          (networkOctet n 3 a3) =
        dottedQuad (broadcastOctet n 0 a0) (broadcastOctet n 1 a1) (broadcastOctet n 2 a2)
          (broadcastOctet n 3 a3) ↔ n = 32) ∧
      (n = 32 → r.Network = dottedQuad a0 a1 a2 a3 ∧
        dottedQuad (broadcastOctet n 0 a0) (broadcastOctet n 1 a1) (broadcastOctet n 2 a2)
          (broadcastOctet n 3 a3) = dottedQuad a0 a1 a2 a3) := by
  obtain ⟨h0, h1, h2, h3⟩ := ParseAddr_v4_lt ha
  obtain ⟨r, hr, hnet, _, hrange, _⟩ :=
    calculateCIDR_v4_octets a (toString n) a0 a1 a2 a3 n ha (dtoi_toString hn) hn
  have hfull : n = 32 →
      dottedQuad (networkOctet n 0 a0) (networkOctet n 1 a1) (networkOctet n 2 a2)
        (networkOctet n 3 a3) = dottedQuad a0 a1 a2 a3 ∧
      dottedQuad (broadcastOctet n 0 a0) (broadcastOctet n 1 a1) (broadcastOctet n 2 a2)
        (broadcastOctet n 3 a3) = dottedQuad a0 a1 a2 a3 := by
    rintro rfl
    rw [(octets_full_length 0 (by omega) a0 h0).1, (octets_full_length 1 (by omega) a1 h1).1,
      (octets_full_length 2 (by omega) a2 h2).1, (octets_full_length 3 (by omega) a3 h3).1,
      (octets_full_length 0 (by omega) a0 h0).2, (octets_full_length 1 (by omega) a1 h1).2,
      (octets_full_length 2 (by omega) a2 h2).2, (octets_full_length 3 (by omega) a3 h3).2]
    exact ⟨rfl, rfl⟩
  refine ⟨r, hr, hnet, hrange, ⟨?_, fun h => ?_⟩, fun h => ?_⟩
  · intro heq
    obtain ⟨e0, e1, e2, e3⟩ := dottedQuad_inj (networkOctet_lt n 0 a0) (networkOctet_lt n 1 a1)
      (networkOctet_lt n 2 a2) (networkOctet_lt n 3 a3) (broadcastOctet_lt hn 0 a0)
      (broadcastOctet_lt hn 1 a1) (broadcastOctet_lt hn 2 a2) (broadcastOctet_lt hn 3 a3) heq
    obtain ⟨_, _, hsz⟩ := range_arith a0 a1 a2 a3 n hn h0 h1 h2 h3
    rw [← e0, ← e1, ← e2, ← e3, Nat.sub_self] at hsz
    have hpow : 2 ^ (32 - n) = 2 ^ 0 := hsz.symm
    have := Nat.pow_right_injective (Nat.le_refl 2) hpow
    omega
  · rw [(hfull h).1, (hfull h).2]
  · rw [hnet]
    exact hfull h

/-- Instance of C15 at the address text `10.0.0.5` and the length 32. -/
theorem endpoints_equal_iff_full_length_witness :
    ParseAddr "10.0.0.5".toList = some (Addr.v4 [10, 0, 0, 5]) ∧ 32 ≤ 32 ∧
    ∃ r, calculateCIDR "10.0.0.5" (toString 32) = Except.ok r ∧
      r.Network = dottedQuad (networkOctet 32 0 10) (networkOctet 32 1 0) (networkOctet 32 2 0)
        (networkOctet 32 3 5) ∧
      r.AddrRange = r.Network ++ " - " ++
        dottedQuad (broadcastOctet 32 0 10) (broadcastOctet 32 1 0) (broadcastOctet 32 2 0)
          (broadcastOctet 32 3 5) ∧
      (dottedQuad (networkOctet 32 0 10) (networkOctet 32 1 0) (networkOctet 32 2 0)
          (networkOctet 32 3 5) =
        dottedQuad (broadcastOctet 32 0 10) (broadcastOctet 32 1 0) (broadcastOctet 32 2 0)
          (broadcastOctet 32 3 5) ↔ 32 = 32) ∧
      (32 = 32 → r.Network = dottedQuad 10 0 0 5 ∧
        dottedQuad (broadcastOctet 32 0 10) (broadcastOctet 32 1 0) (broadcastOctet 32 2 0)
          (broadcastOctet 32 3 5) = dottedQuad 10 0 0 5) :=
  ⟨by decide, by decide,
    endpoints_equal_iff_full_length "10.0.0.5" 10 0 0 5 32 (by decide) (by decide)⟩

/-- C17: for a valid IPv4 address text with octets `a0.a1.a2.a3` and a prefix
length `n ≤ 32`, reading the network address `N`, the broadcast address `B` (the
two endpoints of `AddrRange`) and the typed address `A` as 32-bit numbers,
`N ≤ A ≤ B` and `TotalAddresses` is the decimal rendering of `B - N + 1`. -/
theorem range_holds_address_and_total (a : String) (a0 a1 a2 a3 n : Nat)
    (ha : ParseAddr a.toList = some (Addr.v4 [a0, a1, a2, a3])) (hn : n ≤ 32) :
    ∃ r, calculateCIDR a (toString n) = Except.ok r ∧
      r.Network = dottedQuad (networkOctet n 0 a0) (networkOctet n 1 a1) (networkOctet n 2 a2)
        (networkOctet n 3 a3) ∧
      r.AddrRange = r.Network ++ " - " ++
        dottedQuad (broadcastOctet n 0 a0) (broadcastOctet n 1 a1) (broadcastOctet n 2 a2)
          (broadcastOctet n 3 a3) ∧
      value32 (networkOctet n 0 a0) (networkOctet n 1 a1) (networkOctet n 2 a2)
        (networkOctet n 3 a3) ≤ value32 a0 a1 a2 a3 ∧
      value32 a0 a1 a2 a3 ≤ value32 (broadcastOctet n 0 a0) (broadcastOctet n 1 a1)
        (broadcastOctet n 2 a2) (broadcastOctet n 3 a3) ∧
      value32 (broadcastOctet n 0 a0) (broadcastOctet n 1 a1) (broadcastOctet n 2 a2)
        (broadcastOctet n 3 a3) < 2 ^ 32 ∧
      r.TotalAddresses = toString
        (value32 (broadcastOctet n 0 a0) (broadcastOctet n 1 a1) (broadcastOctet n 2 a2)
            (broadcastOctet n 3 a3) -
          value32 (networkOctet n 0 a0) (networkOctet n 1 a1) (networkOctet n 2 a2)
            (networkOctet n 3 a3) + 1) := by
  obtain ⟨h0, h1, h2, h3⟩ := ParseAddr_v4_lt ha
  obtain ⟨r, hr, hnet, _, hrange, htot⟩ :=
    calculateCIDR_v4_octets a (toString n) a0 a1 a2 a3 n ha (dtoi_toString hn) hn
  obtain ⟨hle, hub, hsz⟩ := range_arith a0 a1 a2 a3 n hn h0 h1 h2 h3
  refine ⟨r, hr, hnet, hrange, hle, hub, ?_, by rw [hsz, htot]⟩
  have b0 := broadcastOctet_lt hn 0 a0
  have b1 := broadcastOctet_lt hn 1 a1
  have b2 := broadcastOctet_lt hn 2 a2
  have b3 := broadcastOctet_lt hn 3 a3
  unfold value32
  omega

/-- Instance of C17 at the address text `192.168.1.10` and the length 20. -/
theorem range_holds_address_and_total_witness :
    ParseAddr "192.168.1.10".toList = some (Addr.v4 [192, 168, 1, 10]) ∧ 20 ≤ 32 ∧
    ∃ r, calculateCIDR "192.168.1.10" (toString 20) = Except.ok r ∧
      r.Network = dottedQuad (networkOctet 20 0 192) (networkOctet 20 1 168)
        (networkOctet 20 2 1) (networkOctet 20 3 10) ∧
      r.AddrRange = r.Network ++ " - " ++
        dottedQuad (broadcastOctet 20 0 192) (broadcastOctet 20 1 168) (broadcastOctet 20 2 1)
          (broadcastOctet 20 3 10) ∧
      value32 (networkOctet 20 0 192) (networkOctet 20 1 168) (networkOctet 20 2 1)
        (networkOctet 20 3 10) ≤ value32 192 168 1 10 ∧
      value32 192 168 1 10 ≤ value32 (broadcastOctet 20 0 192) (broadcastOctet 20 1 168)
        (broadcastOctet 20 2 1) (broadcastOctet 20 3 10) ∧
      value32 (broadcastOctet 20 0 192) (broadcastOctet 20 1 168) (broadcastOctet 20 2 1)
        (broadcastOctet 20 3 10) < 2 ^ 32 ∧
      r.TotalAddresses = toString
        (value32 (broadcastOctet 20 0 192) (broadcastOctet 20 1 168) (broadcastOctet 20 2 1)
            (broadcastOctet 20 3 10) -
          value32 (networkOctet 20 0 192) (networkOctet 20 1 168) (networkOctet 20 2 1)
            (networkOctet 20 3 10) + 1) :=
  ⟨by decide, by decide,
    range_holds_address_and_total "192.168.1.10" 192 168 1 10 20 (by decide) (by decide)⟩

/-- C18: for a prefix length `n ≤ 32` and two valid IPv4 address texts whose
32-bit values have the same top `n` bits, `calculateCIDR` returns the same
record, equal in every field, for both. -/
theorem same_block_same_record (a b : String) (a0 a1 a2 a3 b0 b1 b2 b3 n : Nat)
    (ha : ParseAddr a.toList = some (Addr.v4 [a0, a1, a2, a3]))
    (hb : ParseAddr b.toList = some (Addr.v4 [b0, b1, b2, b3])) (hn : n ≤ 32)
    (htop : value32 a0 a1 a2 a3 / 2 ^ (32 - n) = value32 b0 b1 b2 b3 / 2 ^ (32 - n)) :
    ∃ r, calculateCIDR a (toString n) = Except.ok r ∧
      calculateCIDR b (toString n) = Except.ok r := by
  obtain ⟨ha0, ha1, ha2, ha3⟩ := ParseAddr_v4_lt ha
  obtain ⟨hb0, hb1, hb2, hb3⟩ := ParseAddr_v4_lt hb
  obtain ⟨e0, e1, e2, e3⟩ := networkOctet_eq_of_top_bits a0 a1 a2 a3 b0 b1 b2 b3 n hn
    ha0 ha1 ha2 ha3 hb0 hb1 hb2 hb3 htop
  unfold networkOctet at e0 e1 e2 e3
  refine ⟨_, calculateCIDR_v4 a _ a0 a1 a2 a3 n ha (dtoi_toString hn) hn, ?_⟩
  rw [calculateCIDR_v4 b _ b0 b1 b2 b3 n hb (dtoi_toString hn) hn, e0, e1, e2, e3]

/-- Instance of C18 at the address texts `192.168.1.10` and `192.168.1.200`
and the length 24. -/
theorem same_block_same_record_witness :
    ParseAddr "192.168.1.10".toList = some (Addr.v4 [192, 168, 1, 10]) ∧
    ParseAddr "192.168.1.200".toList = some (Addr.v4 [192, 168, 1, 200]) ∧ 24 ≤ 32 ∧
    value32 192 168 1 10 / 2 ^ (32 - 24) = value32 192 168 1 200 / 2 ^ (32 - 24) ∧
    ∃ r, calculateCIDR "192.168.1.10" (toString 24) = Except.ok r ∧
      calculateCIDR "192.168.1.200" (toString 24) = Except.ok r :=
  ⟨by decide, by decide, by decide, by decide,
    same_block_same_record "192.168.1.10" "192.168.1.200" 192 168 1 10 192 168 1 200 24
      (by decide) (by decide) (by decide) (by decide)⟩

theorem splitAtSlash_append (x y : String) (hx : '/' ∉ x.toList) :
    splitAtSlash (x ++ "/" ++ y) = (x, y) := by
  unfold splitAtSlash
  rw [toList_append_slash, takeWhile_slash _ _ hx, dropWhile_slash _ _ hx]
  rfl

/-- C19: for a valid IPv4 address text and a mask text denoting a length in
0..32, let `r` be the record returned and split `r.CIDRNotation` at its `/`;
the first part parses as a valid IPv4 address and `calculateCIDR` on the two
parts returns `r` again. -/
theorem cidrNotation_round_trip (a m : String) (a0 a1 a2 a3 : Nat)
    (ha : ParseAddr a.toList = some (Addr.v4 [a0, a1, a2, a3]))
    (hd : denotesLength m.toList) :
    ∃ r, calculateCIDR a m = Except.ok r ∧
      (∃ f, ParseAddr (splitAtSlash r.CIDRNotation).1.toList = some (Addr.v4 f)) ∧
      calculateCIDR (splitAtSlash r.CIDRNotation).1 (splitAtSlash r.CIDRNotation).2 =
        Except.ok r := by
  have hn : decimalValue m.toList 0 ≤ 32 := hd.2.2
  have hr := calculateCIDR_v4 a m a0 a1 a2 a3 _ ha (dtoi_digits hd.1 hd.2.1 rfl hn) hn
  have hp := ParseAddr_dottedQuad _ _ _ _
    (and_octet_lt a0 (netmaskValue (decimalValue m.toList 0)) 0)
    (and_octet_lt a1 (netmaskValue (decimalValue m.toList 0)) 1)
    (and_octet_lt a2 (netmaskValue (decimalValue m.toList 0)) 2)
    (and_octet_lt a3 (netmaskValue (decimalValue m.toList 0)) 3)
  have hs := splitAtSlash_append _ (toString (decimalValue m.toList 0))
    (ParseAddr_v4_no_slash hp)
  refine ⟨_, hr, ?_, ?_⟩
  · simp only [hs]
    exact ⟨_, hp⟩
  · simp only [hs]
    rw [calculateCIDR_v4 _ _ _ _ _ _ _ hp (dtoi_toString hn) hn]
    simp only [Nat.and_assoc, Nat.and_self]

/-- Instance of C19 at the address text `192.168.1.10` and the mask text `024`. -/
theorem cidrNotation_round_trip_witness :
    ParseAddr "192.168.1.10".toList = some (Addr.v4 [192, 168, 1, 10]) ∧
    denotesLength "024".toList ∧
    ∃ r, calculateCIDR "192.168.1.10" "024" = Except.ok r ∧
      (∃ f, ParseAddr (splitAtSlash r.CIDRNotation).1.toList = some (Addr.v4 f)) ∧
      calculateCIDR (splitAtSlash r.CIDRNotation).1 (splitAtSlash r.CIDRNotation).2 =
        Except.ok r :=
  ⟨by decide, ⟨by decide, by decide, by decide⟩,
    cidrNotation_round_trip "192.168.1.10" "024" 192 168 1 10 (by decide)
      ⟨by decide, by decide, by decide⟩⟩

end Cidr
